import Mathlib

/-!
Verification of the flydent library (src/lib.rs, src/icao.rs, src/registration.rs)
against its natural-language specification.

Strings are modelled as `List Char` where the Rust code works character-wise
(registration.rs, whose code validates that all characters are ASCII before any
byte indexing), and as `List Nat` of UTF-8 bytes where the Rust code indexes by
byte position (lib.rs, whose `&input[0..L]` slices can panic on non-ASCII
input).  Machine integers (`u32`) are modelled as `Nat` with explicit wrapping
`% 2^32` at every arithmetic step of the encoder, because the encoder's
first-digit branch computes `(digit - 1) * BUCKET1_SIZE`, which underflows for
digit 0.  Fallible code returns `Except String`; a Rust panic inside the parser
is modelled as the `Except.error` case of the surrounding computation.
-/

namespace Registration

def US_BASE : Nat := 0xA00000

def US_MAX : Nat := 0xADF7C7

/-- Charset excludes I and O to avoid confusion with digits (registration.rs line 15). -/
def CHARSET : List Char :=
  ['A','B','C','D','E','F','G','H','J','K','L','M','N','P','Q','R','S','T','U','V','W','X','Y','Z']

/-- ALLCHARS is the 24 letters followed by the 10 digits (registration.rs line 16). -/
def ALLCHARS : List Char :=
  CHARSET ++ ['0','1','2','3','4','5','6','7','8','9']

def SUFFIX_SIZE : Nat := 1 + 24 * (1 + 24)

def BUCKET4_SIZE : Nat := 1 + 24 + 10

def BUCKET3_SIZE : Nat := 10 * BUCKET4_SIZE + SUFFIX_SIZE

def BUCKET2_SIZE : Nat := 10 * BUCKET3_SIZE + SUFFIX_SIZE

def BUCKET1_SIZE : Nat := 10 * BUCKET2_SIZE + SUFFIX_SIZE

/-- Wrapping 32-bit addition, as Rust release-mode `u32` addition. -/
def u32add (a b : Nat) : Nat := (a + b) % 2 ^ 32

/-- Wrapping 32-bit subtraction `a - b` for `a b < 2^32`. -/
def u32sub (a b : Nat) : Nat := (a + 2 ^ 32 - b % 2 ^ 32) % 2 ^ 32

/-- Wrapping 32-bit multiplication. -/
def u32mul (a b : Nat) : Nat := a * b % 2 ^ 32

/-- Rust `u32_to_arr3`: split into big-endian bytes (registration.rs line 25). -/
def u32_to_arr3 (x : Nat) : Nat × Nat × Nat :=
  ((x >>> 16) % 256, (x >>> 8) % 256, x % 256)

/-- Rust `arr3_to_u32` (registration.rs line 29). -/
def arr3_to_u32 (a : Nat × Nat × Nat) : Nat :=
  (a.1 <<< 16) ||| (a.2.1 <<< 8) ||| a.2.2

/-- First element of `l` equal to `c`, as Rust `str::find` on an ASCII string. -/
def charIndex (l : List Char) (c : Char) : Option Nat :=
  l.findIdx? (fun x => x == c)

/-- Rust `get_suffix` (registration.rs lines 40-52).  The two `unwrap`s on
`CHARSET.chars().nth(..)` are modelled with `getD`; every caller passes an
offset below `SUFFIX_SIZE`, for which both indices are in range. -/
def get_suffix (offset : Nat) : List Char :=
  if offset = 0 then []
  else
    let char0_idx := (offset - 1) / 25
    let rem := (offset - 1) % 25
    let char0 := CHARSET.getD char0_idx 'A'
    if rem = 0 then [char0]
    else [char0, CHARSET.getD (rem - 1) 'A']

/-- Rust `suffix_offset` (registration.rs lines 56-74). -/
def suffix_offset (s : List Char) : Option Nat :=
  match s with
  | [] => some 0
  | [c0] => (charIndex CHARSET c0).map (fun i0 => 25 * i0 + 1)
  | [c0, c1] =>
    match charIndex CHARSET c0, charIndex CHARSET c1 with
    | some i0, some i1 => some (25 * i0 + 1 + (i1 + 1))
    | _, _ => none
  | _ => none

/-- The Unicode White_Space code points, the set trimmed by Rust `str::trim`. -/
def isRustWhitespace (c : Char) : Bool :=
  decide (c.toNat = 9 ∨ c.toNat = 10 ∨ c.toNat = 11 ∨ c.toNat = 12 ∨ c.toNat = 13 ∨
    c.toNat = 32 ∨ c.toNat = 0x85 ∨ c.toNat = 0xA0 ∨ c.toNat = 0x1680 ∨
    (0x2000 ≤ c.toNat ∧ c.toNat ≤ 0x200A) ∨ c.toNat = 0x2028 ∨ c.toNat = 0x2029 ∨
    c.toNat = 0x202F ∨ c.toNat = 0x205F ∨ c.toNat = 0x3000)

/-- Rust `str::trim`: drop whitespace from both ends. -/
def trim (s : List Char) : List Char :=
  ((s.dropWhile isRustWhitespace).reverse.dropWhile isRustWhitespace).reverse

/-- Rust `char::to_ascii_uppercase`: subtract 32 on the code points of a-z. -/
def toAsciiUpper (c : Char) : Char :=
  if 97 ≤ c.toNat ∧ c.toNat ≤ 122 then Char.ofNat (c.toNat - 32) else c

/-- Rust `char::to_digit(10)`: the code points of the digits are 48-57. -/
def charToDigit (c : Char) : Option Nat :=
  if 48 ≤ c.toNat ∧ c.toNat ≤ 57 then some (c.toNat - 48) else none

def errMustStartWithN : String := "Must start with N"

def errTooLong : String := "N-Number too long (max 6 chars)"

def errInvalidCharacter : String := "Invalid character"

def errLettersOnlySuffix : String := "Letters can only appear as suffix"

def errInvalidSuffix : String := "Invalid suffix"

def errInvalidDigit : String := "Invalid digit"

def errFormat : String := "N-Number format error"

def errOutOfUSRange : String := "Out of US range"

def errNotInUS : String := "Not in US allocation"

def errInvalidLastChar : String := "Invalid last character"

def errUnsupported : String := "Unsupported registration prefix (only US 'N' supported)"

/-- Loop body of `us_n_to_icao_u32` (registration.rs lines 116-140): walk the
characters after `N` by position `i`, accumulating into `count` with wrapping
`u32` arithmetic.  Position 4 consumes one character from `ALLCHARS`; an
earlier letter consumes the whole remainder as a suffix; a digit adds its
bucket contribution (`(digit - 1) * BUCKET1_SIZE` at position 0). -/
def encodeLoop : Nat → List Char → Nat → Except String Nat
  | _, [], count => .ok count
  | i, c :: cs, count =>
    if i = 4 then
      match charIndex ALLCHARS c with
      | some idx => .ok (u32add count (idx + 1))
      | none => .error errInvalidCharacter
    else if CHARSET.contains c then
      match suffix_offset (c :: cs) with
      | some off => .ok (u32add count off)
      | none => .error errInvalidSuffix
    else
      match charToDigit c with
      | some d =>
        match i with
        | 0 => encodeLoop 1 cs (u32add count (u32mul (u32sub d 1) BUCKET1_SIZE))
        | 1 => encodeLoop 2 cs (u32add count (u32add (u32mul d BUCKET2_SIZE) SUFFIX_SIZE))
        | 2 => encodeLoop 3 cs (u32add count (u32add (u32mul d BUCKET3_SIZE) SUFFIX_SIZE))
        | 3 => encodeLoop 4 cs (u32add count (u32add (u32mul d BUCKET4_SIZE) SUFFIX_SIZE))
        | _ => .error errFormat
      | none => .error errInvalidDigit

/-- Body of Rust `us_n_to_icao_u32` after the trim-and-uppercase normalization
(registration.rs lines 81-147): validation, then the positional encoder. -/
def us_n_core (nn : List Char) : Except String Nat :=
  if nn.head? ≠ some 'N' then .error errMustStartWithN
  else if 6 < nn.length then .error errTooLong
  else if ¬ nn.all (fun c => ALLCHARS.contains c) then .error errInvalidCharacter
  else if 3 < nn.length ∧
      (List.range' 1 (nn.length - 3)).any (fun i => CHARSET.contains (nn.getD i ' ')) then
    .error errLettersOnlySuffix
  else if nn.length = 1 then .ok (u32add US_BASE 1)
  else
    (encodeLoop 0 (nn.drop 1) 1).bind (fun count =>
      let icao := u32add US_BASE count
      if US_MAX < icao then .error errOutOfUSRange else .ok icao)

/-- Rust `us_n_to_icao_u32` (registration.rs lines 77-148): trim and uppercase
the input (line 78), then run the validation and encoder body. -/
def us_n_to_icao_u32 (nnumber : List Char) : Except String Nat :=
  us_n_core ((trim nnumber).map toAsciiUpper)

/-- Decimal rendering of a natural number, as Rust `u32::to_string`. -/
def natToChars (n : Nat) : List Char :=
  Nat.toDigits 10 n

/-- Digit 4 step of Rust `icao_u32_to_us` (registration.rs lines 188-203),
written as a helper on the running remainder `rem3` and output `out3`. -/
def decodeLevel4 (rem3 : Nat) (out3 : List Char) : Except String (List Char) :=
  let r4 := rem3 - SUFFIX_SIZE
  let dig4 := r4 / BUCKET4_SIZE
  let rem4 := r4 % BUCKET4_SIZE
  let out4 := out3 ++ natToChars dig4
  if rem4 = 0 then .ok out4
  else
    match ALLCHARS.get? (rem4 - 1) with
    | some c => .ok (out4 ++ [c])
    | none => .error errInvalidLastChar

/-- Digit 3 step of Rust `icao_u32_to_us` (registration.rs lines 178-186). -/
def decodeLevel3 (rem2 : Nat) (out2 : List Char) : Except String (List Char) :=
  let r3 := rem2 - SUFFIX_SIZE
  let dig3 := r3 / BUCKET3_SIZE
  let rem3 := r3 % BUCKET3_SIZE
  let out3 := out2 ++ natToChars dig3
  if rem3 < SUFFIX_SIZE then .ok (out3 ++ get_suffix rem3)
  else decodeLevel4 rem3 out3

/-- Digit 2 step of Rust `icao_u32_to_us` (registration.rs lines 168-176). -/
def decodeLevel2 (rem1 : Nat) (out1 : List Char) : Except String (List Char) :=
  let r2 := rem1 - SUFFIX_SIZE
  let dig2 := r2 / BUCKET2_SIZE
  let rem2 := r2 % BUCKET2_SIZE
  let out2 := out1 ++ natToChars dig2
  if rem2 < SUFFIX_SIZE then .ok (out2 ++ get_suffix rem2)
  else decodeLevel3 rem2 out2

/-- Rust `icao_u32_to_us` (registration.rs lines 151-204): range guard, first
digit, then the three further digit steps above. -/
def icao_u32_to_us (icao : Nat) : Except String (List Char) :=
  if ¬ (US_BASE + 1 ≤ icao ∧ icao ≤ US_MAX) then .error errNotInUS
  else
    let i := icao - US_BASE - 1
    let dig1 := i / BUCKET1_SIZE + 1
    let rem1 := i % BUCKET1_SIZE
    let out1 := 'N' :: natToChars dig1
    if rem1 < SUFFIX_SIZE then .ok (out1 ++ get_suffix rem1)
    else decodeLevel2 rem1 out1

/-- Rust `registration_to_icao` (registration.rs lines 208-214): the raw input
must start with an uppercase `N` before any normalization. -/
def registration_to_icao (reg : List Char) : Except String (Nat × Nat × Nat) :=
  if reg.head? = some 'N' then (us_n_to_icao_u32 reg).map u32_to_arr3
  else .error errUnsupported

/-- Rust `icao_to_registration` (registration.rs lines 216-223). -/
def icao_to_registration (icao : Nat × Nat × Nat) : Except String (List Char) :=
  let icao_u32 := arr3_to_u32 icao
  if US_BASE + 1 ≤ icao_u32 ∧ icao_u32 ≤ US_MAX then icao_u32_to_us icao_u32
  else .error errNotInUS

/-- The ten decimal digit characters. -/
def DIGITS : List Char := ['0','1','2','3','4','5','6','7','8','9']

/-- Trailing suffixes allowed by section 4.3: zero, one or two letters of the
24-letter alphabet. -/
def validSuffix (s : List Char) : Bool :=
  match s with
  | [] => true
  | [a] => CHARSET.contains a
  | [a, b] => CHARSET.contains a && CHARSET.contains b
  | _ => false

/-- Structural rule of section 4.3 for the remainder after position `i`:
digits may continue, a letter starts a trailing 1-2 letter suffix, and the
character at position 4 (if reached while still emitting digits) may be any
of the 34 symbols and must be last. -/
def specTail : Nat → List Char → Bool
  | _, [] => true
  | 4, [c] => ALLCHARS.contains c
  | 4, _ :: _ :: _ => false
  | i, c :: cs =>
    if CHARSET.contains c then validSuffix (c :: cs)
    else DIGITS.contains c && specTail (i + 1) cs

/-- The claim C1 domain, following the words of section 4.3: the letter `N`
followed by 0-5 characters, digits and a 1-2-letter trailing suffix, the
fifth remainder character drawn from the whole 34-symbol alphabet. -/
def specValidNN (s : List Char) : Bool :=
  match s with
  | c0 :: rest => c0 == 'N' && decide (rest.length ≤ 5) && specTail 0 rest
  | _ => false

/-- The amended C1 domain: as `specValidNN`, but the remainder is nonempty and
its first character is a digit 1-9. -/
def validNN (s : List Char) : Bool :=
  match s with
  | c0 :: c1 :: rest => c0 == 'N' && (DIGITS.contains c1 && !(c1 == '0')) && specTail 1 rest
  | _ => false

/-- Modelled from the claim C3 wording (spec section 4.3): the accumulator
starts at 1, a digit at remainder position `i` adds `digit * BUCKET(i+1)_SIZE`
plus `SUFFIX_SIZE` when `1 <= i <= 3` and no `SUFFIX_SIZE` term when `i = 0`,
and the final address is `0xA00000` plus the accumulator.  Kept for
comparison with the code, which subtracts one from the digit at position 0. -/
def specC3Accum : Nat → List Nat → Nat
  | 0, d :: ds => d * BUCKET1_SIZE + specC3Accum 1 ds
  | 1, d :: ds => d * BUCKET2_SIZE + SUFFIX_SIZE + specC3Accum 2 ds
  | 2, d :: ds => d * BUCKET3_SIZE + SUFFIX_SIZE + specC3Accum 3 ds
  | 3, d :: ds => d * BUCKET4_SIZE + SUFFIX_SIZE + specC3Accum 4 ds
  | _, _ => 0

/-- Address given by the claim C3 formula on a list of digit values. -/
def specC3Address (digits : List Nat) : Nat :=
  US_BASE + (1 + specC3Accum 0 digits)

/-- Digit character for a digit value below 10. -/
def dc (d : Nat) : Char := Char.ofNat (48 + d)

/-- Helper for the suffix round trip checked by exhaustion: the offset of a
suffix is below 601 and maps back to the suffix. -/
def suffixRt (s : List Char) : Bool :=
  match suffix_offset s with
  | some k => decide (k < 601) && (get_suffix k == s)
  | none => false

end Registration

namespace Icao

/-- The fixed allocation table of icao.rs lines 8-207, in source order:
(binary address prefix, ISO2 country code) pairs, scanned first-match-first.
Transcribed entry for entry from `ICAO_ALLOCATIONS`. -/
def ICAO_ALLOCATIONS : List (String × String) := [
  ("00001100101000", "AG"),
  ("01010000000100", "AL"),
  ("00001010101000", "BB"),
  ("00001010101100", "BZ"),
  ("00001001010000", "BJ"),
  ("01101000000000", "BT"),
  ("111010010100", "BO"),
  ("01010001001100", "BA"),
  ("00000011000000", "BW"),
  ("10001001010100", "BN"),
  ("000010011100", "BF"),
  ("000000110010", "BI"),
  ("011100001110", "KH"),
  ("000000110100", "CM"),
  ("00001001011000", "CV"),
  ("000001101100", "CF"),
  ("000010000100", "TD"),
  ("111010000000", "CL"),
  ("000010101100", "CO"),
  ("00000011010100", "KM"),
  ("000000110110", "CG"),
  ("10010000000100", "CK"),
  ("000010101110", "CR"),
  ("000000111000", "CI"),
  ("01010000000111", "HR"),
  ("000010110000", "CU"),
  ("01001100100000", "CY"),
  ("011100100", "KP"),
  ("000010001100", "CD"),
  ("00001001100000", "DJ"),
  ("000011000100", "DO"),
  ("111010000100", "EC"),
  ("000010110010", "SV"),
  ("000001000010", "GQ"),
  ("00100000001000", "ER"),
  ("01010001000100", "EE"),
  ("000001000000", "ET"),
  ("110010001000", "FJ"),
  ("000000111110", "GA"),
  ("000010011010", "GM"),
  ("01010001010000", "GE"),
  ("000001000100", "GH"),
  ("00001100110000", "GD"),
  ("000010110100", "GT"),
  ("000001000110", "GN"),
  ("00000100100000", "GW"),
  ("000010110110", "GY"),
  ("000010111000", "HT"),
  ("000010111010", "HN"),
  ("010011001100", "IS"),
  ("011100110", "IR"),
  ("011100101", "IQ"),
  ("010011001010", "IE"),
  ("011100111", "IL"),
  ("000010111110", "JM"),
  ("011101000", "JO"),
  ("01101000001100", "KZ"),
  ("000001001100", "KE"),
  ("11001000111000", "KI"),
  ("011100000110", "KW"),
  ("01100000000100", "KG"),
  ("011100001000", "LA"),
  ("01010000001011", "LV"),
  ("011101001", "LB"),
  ("00000100101000", "LS"),
  ("000001010000", "LR"),
  ("01010000001111", "LT"),
  ("01001101000000", "LU"),
  ("000001010100", "MG"),
  ("000001011000", "MW"),
  ("011101010", "MY"),
  ("00000101101000", "MV"),
  ("000001011100", "ML"),
  ("01001101001000", "MT"),
  ("10010000000000", "MH"),
  ("00000101111000", "MR"),
  ("00000110000000", "MU"),
  ("01101000000100", "FM"),
  ("01001101010000", "MC"),
  ("01101000001000", "MN"),
  ("000000000110", "MZ"),
  ("011100000100", "MM"),
  ("00100000000100", "NA"),
  ("11001000101000", "NR"),
  ("011100001010", "NP"),
  ("000011000000", "NI"),
  ("000001100010", "NE"),
  ("000001100100", "NG"),
  ("01110000110000", "OM"),
  ("011101100", "PK"),
  ("01101000010000", "PW"),
  ("000011000010", "PA"),
  ("100010011000", "PG"),
  ("111010001000", "PY"),
  ("111010001100", "PE"),
  ("011101011", "PH"),
  ("00000110101000", "QA"),
  ("011100011", "KR"),
  ("01010000010011", "MD"),
  ("000001101110", "RW"),
  ("11001000110000", "LC"),
  ("00001011110000", "VC"),
  ("10010000001000", "WS"),
  ("01010000000000", "SM"),
  ("00001001111000", "ST"),
  ("011100010", "SA"),
  ("000001110000", "SN"),
  ("00000111010000", "SC"),
  ("00000111011000", "SL"),
  ("011101101", "SG"),
  ("01010000010111", "SK"),
  ("01010000011011", "SI"),
  ("10001001011100", "SB"),
  ("000001111000", "SO"),
  ("011101110", "LK"),
  ("000001111100", "SD"),
  ("000011001000", "SR"),
  ("00000111101000", "SZ"),
  ("01010001010100", "TJ"),
  ("01010001001000", "MK"),
  ("000010001000", "TG"),
  ("11001000110100", "TO"),
  ("000011000110", "TT"),
  ("01100000000110", "TM"),
  ("000001101000", "UG"),
  ("100010010110", "AE"),
  ("000010000000", "TZ"),
  ("111010010000", "UY"),
  ("01010000011111", "UZ"),
  ("11001001000000", "VU"),
  ("100010010000", "YE"),
  ("000010001010", "ZM"),
  ("00000000010000", "ZW"),
  ("10001001100100", "ZZ"),
  ("11110000100100", "ZZ"),
  ("011100000000", "AF"),
  ("01100000000000", "AM"),
  ("01100000000010", "AZ"),
  ("000010101000", "BS"),
  ("100010010100", "BH"),
  ("011100000010", "BD"),
  ("01010001000000", "BY"),
  ("000010100", "DZ"),
  ("010001000", "AT"),
  ("010001001", "BE"),
  ("010001010", "BG"),
  ("010001011", "DK"),
  ("010001100", "FI"),
  ("010001101", "GR"),
  ("010001110", "HU"),
  ("010001111", "NO"),
  ("100010100", "ID"),
  ("010010000", "NL"),
  ("010010001", "PL"),
  ("010010010", "PT"),
  ("010010011", "CZ"),
  ("010010100", "RO"),
  ("010010101", "SE"),
  ("010010110", "CH"),
  ("010010111", "TR"),
  ("110010000", "NZ"),
  ("010100001", "UA"),
  ("000011010", "MX"),
  ("000011011", "VE"),
  ("100010000", "TH"),
  ("100010001", "VN"),
  ("010011000", "RS"),
  ("111100000", "ZZ"),
  ("111000", "AR"),
  ("011111", "AU"),
  ("110000", "CA"),
  ("111001", "BR"),
  ("001110", "FR"),
  ("001111", "DE"),
  ("100000", "IN"),
  ("001100", "IT"),
  ("100001", "JP"),
  ("001101", "ES"),
  ("010000", "GB"),
  ("1010", "US"),
  ("0001", "RU"),
  ("000000001", "ZA"),
  ("000000010", "EG"),
  ("000000011", "LY"),
  ("000000100", "MA"),
  ("000000101", "TN"),
  ("000010010000", "AO")]

/-- One byte rendered as 8 binary characters, most significant bit first, as
the Rust format string `08b` used in icao.rs line 273. -/
def byteBits (b : Nat) : List Char :=
  (List.range 8).map (fun k => if b.testBit (7 - k) then '1' else '0')

/-- Rust `icao_to_country` (icao.rs lines 271-283): render the three bytes as
a 24-character binary string and return the code of the first table entry
whose prefix starts the string. -/
def icao_to_country (icao : Nat × Nat × Nat) : Option String :=
  let binary := byteBits icao.1 ++ byteBits icao.2.1 ++ byteBits icao.2.2
  (ICAO_ALLOCATIONS.find? (fun e => e.1.toList.isPrefixOf binary)).map (fun e => e.2)

/-- Rust `icao_u32_to_country` (icao.rs lines 234-248): reject values above 24
bits, otherwise split into big-endian bytes and delegate. -/
def icao_u32_to_country (icao_u32 : Nat) : Option String :=
  if 0xFFFFFF < icao_u32 then none
  else icao_to_country ((icao_u32 >>> 16) % 256, (icao_u32 >>> 8) % 256, icao_u32 % 256)

end Icao

namespace Parser

/-- One record of the reference dataset (lib.rs `EntityData`, lines 58-66).
The dataset itself is an external collaborator loaded from CSV, so the entity
payload is an abstract `α` and the two compiled regex tests are abstracted as
Boolean functions of the input (`Regex::new(..).is_match(input)`, with a
pattern that fails to compile giving the constantly-false function, as the
code treats a malformed pattern as a non-match). -/
structure EntityData (α : Type) where
  entity_result : α
  priority : Int
  regex : List Nat → Bool
  strict_regex : List Nat → Bool

/-- Rust `str::is_char_boundary` on a byte string: position 0, the end of the
string, or any position whose byte is not a UTF-8 continuation byte. -/
def isCharBoundary (input : List Nat) (i : Nat) : Bool :=
  if i = 0 then true
  else if i = input.length then true
  else if input.length < i then false
  else !(decide (128 ≤ input.getD i 0 ∧ input.getD i 0 < 192))

def panicMsg : String := "panicked: byte index is not a char boundary"

/-- Rust `&input[0..L]`: the byte slice, or `none` when the slice end is not a
character boundary, in which case Rust panics. -/
def sliceTo (input : List Nat) (L : Nat) : Option (List Nat) :=
  if isCharBoundary input L then some (input.take L) else none

/-- Candidate gathering of `parse_registration` (lib.rs lines 240-251): for
every length from `minLen` to `maxLen`, look up the byte slice `input[0..L]`
in the callsign map and append all records found; a slice at a non-boundary
position is the panic case. -/
def gather_callsigns {α : Type} (cmap : List Nat → List (EntityData α))
    (minLen maxLen : Nat) (input : List Nat) : Except String (List (EntityData α)) :=
  (List.range' minLen (maxLen + 1 - minLen)).foldlM (fun acc L =>
    if L ≤ input.length then
      match sliceTo input L with
      | some p => .ok (acc ++ cmap p)
      | none => .error panicMsg
    else .ok acc) []

/-- One insertion into the priority groups
(`matches_by_priority.entry(priority).or_default().push(data)`, lib.rs line
264); the `HashMap` is modelled as an association list whose per-key vectors
keep insertion order. -/
def insertGroup {α : Type} (gs : List (Int × List (EntityData α))) (d : EntityData α) :
    List (Int × List (EntityData α)) :=
  match gs with
  | [] => [(d.priority, [d])]
  | g :: rest =>
    if g.1 = d.priority then (g.1, g.2 ++ [d]) :: rest
    else g :: insertGroup rest d

/-- Rust `matches_by_priority.get(p).cloned()`. -/
def groupLookup {α : Type} (gs : List (Int × List (EntityData α))) (p : Int) :
    Option (List (EntityData α)) :=
  (gs.find? (fun g => g.1 == p)).map (fun g => g.2)

/-- Rust `Parser::parse_registration` (lib.rs lines 239-274): gather
candidates, test each candidate with the selected pattern, group the matches
by priority, and return the group of the maximum priority key (maximum over
the grouping keys, which is iteration-order independent). -/
def parse_registration {α : Type} (cmap : List Nat → List (EntityData α))
    (minLen maxLen : Nat) (input : List Nat) (strict : Bool) :
    Except String (Option (List (EntityData α))) := do
  let datasets ← gather_callsigns cmap minLen maxLen input
  if datasets.isEmpty then return none
  else
    let groups := datasets.foldl (fun gs d =>
      if (if strict then d.strict_regex input else d.regex input) then insertGroup gs d
      else gs) []
    match (groups.map (fun g => g.1)).max? with
    | none => return none
    | some mp => return (groupLookup groups mp)

/-- Strict-mode input test of `parse_icao24bit` (lib.rs line 277): the regex
`^[0-9A-F]{6}$` on a byte string means exactly six bytes, each an ASCII digit
or uppercase A-F. -/
def isStrictIcaoHex (input : List Nat) : Bool :=
  input.length == 6 &&
    input.all (fun b => decide ((48 ≤ b ∧ b ≤ 57) ∨ (65 ≤ b ∧ b ≤ 70)))

/-- Rust `Parser::parse_icao24bit` (lib.rs lines 276-296): in strict mode a
non-hex input is a no-match (after a diagnostic print); otherwise collect, in
ascending prefix-length order, the record of every literal ICAO prefix
`input[0..=i]` present in the index. -/
def parse_icao24bit {α : Type} (imap : List Nat → Option (EntityData α))
    (input : List Nat) (strict : Bool) :
    Except String (Option (List (EntityData α))) :=
  if strict && !isStrictIcaoHex input then .ok none
  else do
    let ms ← (List.range input.length).foldlM (fun acc i =>
      match sliceTo input (i + 1) with
      | some p => .ok (acc ++ (imap p).toList)
      | none => .error panicMsg) []
    if ms.isEmpty then return none else return (some ms)

/-- Rust `Parser::parse` (lib.rs lines 298-310): dispatch on the mode and
return the first record of the returned match list. -/
def parse {α : Type} (cmap : List Nat → List (EntityData α))
    (imap : List Nat → Option (EntityData α)) (minLen maxLen : Nat)
    (input : List Nat) (strict icao24bit : Bool) : Except String (Option α) :=
  if icao24bit then
    (parse_icao24bit imap input strict).map (fun res =>
      match res with
      | some ms => ms.head?.map (fun d => d.entity_result)
      | none => none)
  else
    (parse_registration cmap minLen maxLen input strict).map (fun res =>
      match res with
      | some ms => ms.head?.map (fun d => d.entity_result)
      | none => none)

/-- Demonstration records and index for the C2 scenario: literal ICAO
prefixes 7 and 700 (bytes 55 and 55,48,48) map to two different records. -/
def c2DemoRec1 : EntityData Nat := ⟨1, 0, fun _ => false, fun _ => false⟩

def c2DemoRec2 : EntityData Nat := ⟨2, 0, fun _ => false, fun _ => false⟩

def c2DemoMap : List Nat → Option (EntityData Nat) := fun s =>
  if s = [55] then some c2DemoRec1
  else if s = [55, 48, 48] then some c2DemoRec2
  else none

/-- Demonstration records and callsign map for the C6 witness: two records
with different priorities whose patterns both match. -/
def c6DemoRec1 : EntityData Nat := ⟨1, 0, fun _ => true, fun _ => true⟩

def c6DemoRec2 : EntityData Nat := ⟨2, 5, fun _ => true, fun _ => true⟩

def c6DemoMap : List Nat → List (EntityData Nat) := fun s =>
  if s = [65] then [c6DemoRec1]
  else if s = [65, 66] then [c6DemoRec2]
  else []

end Parser

set_option maxRecDepth 8192

namespace Registration

theorem suffix_offset_get : ∀ k < 601, suffix_offset (get_suffix k) = some k := by decide

theorem get_suffix_valid : ∀ k < 601, validSuffix (get_suffix k) = true := by decide

theorem suffixRt_one : ∀ c ∈ CHARSET, suffixRt [c] = true := by decide

theorem suffixRt_two : ∀ c ∈ CHARSET, ∀ b ∈ CHARSET, suffixRt [c, b] = true := by decide

theorem dc_facts : ∀ d < 10, isRustWhitespace (dc d) = false ∧ toAsciiUpper (dc d) = dc d ∧
    CHARSET.contains (dc d) = false ∧ ALLCHARS.contains (dc d) = true ∧
    charToDigit (dc d) = some d ∧ charIndex ALLCHARS (dc d) = some (24 + d) ∧
    natToChars d = [dc d] := by decide

theorem charset_facts : ∀ c ∈ CHARSET, isRustWhitespace c = false ∧ toAsciiUpper c = c ∧
    CHARSET.contains c = true ∧ ALLCHARS.contains c = true ∧ charToDigit c = none := by decide

theorem allchars_facts : ∀ c ∈ ALLCHARS, isRustWhitespace c = false ∧ toAsciiUpper c = c := by
  decide

theorem allchars_index : ∀ c ∈ ALLCHARS, ∃ j, j < 34 ∧ charIndex ALLCHARS c = some j ∧
    ALLCHARS.get? j = some c := by decide

theorem allchars_getD_index : ∀ j < 34, charIndex ALLCHARS (ALLCHARS.getD j 'A') = some j ∧
    ALLCHARS.get? j = some (ALLCHARS.getD j 'A') := by decide

theorem digits_dc : ∀ c ∈ DIGITS, ∃ d, d < 10 ∧ dc d = c := by decide

/-- A successful `charIndex` points at an occurrence of the character. -/
theorem charIndex_spec (l : List Char) (c : Char) (j : Nat)
    (h : charIndex l c = some j) : l.get? j = some c := by
  induction l generalizing j with
  | nil => simp [charIndex, List.findIdx?] at h
  | cons a as ih =>
    unfold charIndex at h
    by_cases hpa : (a == c) = true
    · have hj : some 0 = some j := by simpa [List.findIdx?_cons, hpa] using h
      have hj0 : j = 0 := by simpa using hj.symm
      subst hj0
      simp [eq_of_beq hpa]
    · have h1 : (as.findIdx? (fun x => x == c)).map (· + 1) = some j := by
        simpa [List.findIdx?_cons, hpa] using h
      rcases Option.map_eq_some'.mp h1 with ⟨j0, hj0, hadd⟩
      subst hadd
      simpa using ih j0 hj0

/-- Every valid suffix has an offset below 601 that maps back to it. -/
theorem suffix_offset_of_valid (s : List Char) (hv : validSuffix s = true) :
    ∃ k, suffix_offset s = some k ∧ k ≤ 600 ∧ get_suffix k = s := by
  match s with
  | [] => exact ⟨0, rfl, by omega, rfl⟩
  | [a] =>
    have ha : a ∈ CHARSET := by simpa [validSuffix] using hv
    have h := suffixRt_one a ha
    unfold suffixRt at h
    rcases hk : suffix_offset [a] with _ | k
    · rw [hk] at h; exact absurd h (by simp)
    · rw [hk] at h
      have h1 : k < 601 ∧ (get_suffix k == [a]) = true := by
        constructor
        · have := (Bool.and_eq_true _ _).mp h |>.1; simpa using this
        · exact (Bool.and_eq_true _ _).mp h |>.2
      exact ⟨k, rfl, by omega, eq_of_beq h1.2⟩
  | [a, b] =>
    have hab : a ∈ CHARSET ∧ b ∈ CHARSET := by
      have := hv; simp [validSuffix, Bool.and_eq_true] at this
      exact ⟨by simpa using this.1, by simpa using this.2⟩
    have h := suffixRt_two a hab.1 b hab.2
    unfold suffixRt at h
    rcases hk : suffix_offset [a, b] with _ | k
    · rw [hk] at h; exact absurd h (by simp)
    · rw [hk] at h
      have h1 : k < 601 ∧ (get_suffix k == [a, b]) = true := by
        constructor
        · have := (Bool.and_eq_true _ _).mp h |>.1; simpa using this
        · exact (Bool.and_eq_true _ _).mp h |>.2
      exact ⟨k, rfl, by omega, eq_of_beq h1.2⟩
  | _ :: _ :: _ :: _ => simp [validSuffix] at hv

theorem u32add_eq (a b : Nat) (h : a + b < 2 ^ 32) : u32add a b = a + b :=
  Nat.mod_eq_of_lt h

theorem u32mul_eq (a b : Nat) (h : a * b < 2 ^ 32) : u32mul a b = a * b :=
  Nat.mod_eq_of_lt h

theorem u32sub_eq (a b : Nat) (hba : b ≤ a) (ha : a < 2 ^ 32) : u32sub a b = a - b := by
  unfold u32sub
  have hb : b % 2 ^ 32 = b := Nat.mod_eq_of_lt (by omega)
  rw [hb]
  have h1 : a + 2 ^ 32 - b = a - b + 2 ^ 32 := by omega
  rw [h1, Nat.add_mod_right, Nat.mod_eq_of_lt (by omega)]

theorem SUFFIX_SIZE_val : SUFFIX_SIZE = 601 := rfl

theorem BUCKET4_SIZE_val : BUCKET4_SIZE = 35 := rfl

theorem BUCKET3_SIZE_val : BUCKET3_SIZE = 951 := rfl

theorem BUCKET2_SIZE_val : BUCKET2_SIZE = 10111 := rfl

theorem BUCKET1_SIZE_val : BUCKET1_SIZE = 101711 := rfl

theorem US_BASE_val : US_BASE = 10485760 := rfl

theorem US_MAX_val : US_MAX = 11401159 := rfl

theorem dropWhile_eq_self_of (p : Char → Bool) (s : List Char)
    (h : ∀ c ∈ s, p c = false) : s.dropWhile p = s := by
  cases s with
  | nil => rfl
  | cons a l => simp [List.dropWhile_cons, h a (by simp)]

theorem trim_eq_self (s : List Char) (h : ∀ c ∈ s, isRustWhitespace c = false) :
    trim s = s := by
  unfold trim
  rw [dropWhile_eq_self_of _ _ h, dropWhile_eq_self_of _ _ (fun c hc => h c (by
    simpa using hc)), List.reverse_reverse]

theorem map_upper_eq_self (s : List Char) (h : ∀ c ∈ s, toAsciiUpper c = c) :
    s.map toAsciiUpper = s := by
  induction s with
  | nil => rfl
  | cons a l ih =>
    simp only [List.map_cons, h a (by simp), ih (fun c hc => h c (by simp [hc]))]

/-- Evaluation of `us_n_to_icao_u32` on an already-normalized input made of
`ALLCHARS` characters that passes the format validation: the result is the
encoder loop followed by the range check. -/
theorem us_n_eval (t : List Char) (ht : t ≠ [])
    (hlen : t.length ≤ 5)
    (hall : ∀ c ∈ t, ALLCHARS.contains c = true)
    (hfmt : ∀ i ∈ List.range' 1 (t.length - 2), CHARSET.contains (('N' :: t).getD i ' ') = false) :
    us_n_to_icao_u32 ('N' :: t) =
      (encodeLoop 0 t 1).bind (fun count =>
        if US_MAX < u32add US_BASE count then .error errOutOfUSRange
        else .ok (u32add US_BASE count)) := by
  have hmem : ∀ c ∈ ('N' :: t), c ∈ ALLCHARS := by
    intro c hc
    rcases List.mem_cons.mp hc with h | h
    · subst h; decide
    · simpa using hall c h
  have hws : ∀ c ∈ ('N' :: t), isRustWhitespace c = false :=
    fun c hc => (allchars_facts c (hmem c hc)).1
  have hup : ∀ c ∈ ('N' :: t), toAsciiUpper c = c :=
    fun c hc => (allchars_facts c (hmem c hc)).2
  have htrim : trim ('N' :: t) = 'N' :: t := trim_eq_self _ hws
  have hmap : ('N' :: t).map toAsciiUpper = 'N' :: t := map_upper_eq_self _ hup
  unfold us_n_to_icao_u32
  rw [htrim, hmap]
  unfold us_n_core
  have hhead : ¬ ((('N' : Char) :: t).head? ≠ some 'N') := by simp
  rw [if_neg hhead]
  have hlen6 : ¬ (6 < ('N' :: t).length) := by
    simp only [List.length_cons]
    omega
  rw [if_neg hlen6]
  have hallb : ('N' :: t).all (fun c => ALLCHARS.contains c) = true := by
    rw [List.all_eq_true]
    intro c hc
    rcases List.mem_cons.mp hc with h | h
    · subst h; decide
    · exact hall c h
  rw [if_neg (not_not_intro hallb)]
  have hfmtb : ¬ (3 < ('N' :: t).length ∧
      ((List.range' 1 (('N' :: t).length - 3)).any
        (fun i => CHARSET.contains (('N' :: t).getD i ' ')) = true)) := by
    rintro ⟨h3, hany⟩
    rw [List.any_eq_true] at hany
    obtain ⟨i, hi, hci⟩ := hany
    have hlc : ('N' :: t).length - 3 = t.length - 2 := by
      simp only [List.length_cons]
      omega
    rw [hlc] at hi
    rw [hfmt i hi] at hci
    exact absurd hci (by simp)
  rw [if_neg hfmtb]
  have hne1 : ¬ (('N' :: t).length = 1) := by
    intro h
    simp only [List.length_cons] at h
    exact ht (List.eq_nil_of_length_eq_zero (by omega))
  rw [if_neg hne1]
  rfl

theorem validSuffix_length (s : List Char) (hv : validSuffix s = true) : s.length ≤ 2 := by
  rcases s with _ | ⟨a, _ | ⟨b, _ | ⟨x, tl⟩⟩⟩ <;> simp_all [validSuffix]

theorem validSuffix_mem (s : List Char) (hv : validSuffix s = true) :
    ∀ c ∈ s, c ∈ CHARSET := by
  rcases s with _ | ⟨a, _ | ⟨b, _ | ⟨x, tl⟩⟩⟩
  · simp
  · simp only [validSuffix] at hv
    intro c hc
    simp only [List.mem_singleton] at hc
    subst hc
    simpa using hv
  · simp only [validSuffix, Bool.and_eq_true] at hv
    intro c hc
    rcases List.mem_cons.mp hc with h | h
    · subst h; simpa using hv.1
    · simp only [List.mem_singleton] at h
      subst h; simpa using hv.2
  · simp [validSuffix] at hv

theorem encodeLoop_nil (i count : Nat) : encodeLoop i [] count = .ok count := rfl

theorem encodeLoop_digit0 (d : Nat) (hd : d < 10) (cs : List Char) (count : Nat) :
    encodeLoop 0 (dc d :: cs) count =
      encodeLoop 1 cs (u32add count (u32mul (u32sub d 1) BUCKET1_SIZE)) := by
  obtain ⟨-, -, hcs, -, hdig, -, -⟩ := dc_facts d hd
  have hmem : dc d ∉ CHARSET := by simpa using hcs
  simp [encodeLoop, hmem, hdig]

theorem encodeLoop_digit1 (d : Nat) (hd : d < 10) (cs : List Char) (count : Nat) :
    encodeLoop 1 (dc d :: cs) count =
      encodeLoop 2 cs (u32add count (u32add (u32mul d BUCKET2_SIZE) SUFFIX_SIZE)) := by
  obtain ⟨-, -, hcs, -, hdig, -, -⟩ := dc_facts d hd
  have hmem : dc d ∉ CHARSET := by simpa using hcs
  simp [encodeLoop, hmem, hdig]

theorem encodeLoop_digit2 (d : Nat) (hd : d < 10) (cs : List Char) (count : Nat) :
    encodeLoop 2 (dc d :: cs) count =
      encodeLoop 3 cs (u32add count (u32add (u32mul d BUCKET3_SIZE) SUFFIX_SIZE)) := by
  obtain ⟨-, -, hcs, -, hdig, -, -⟩ := dc_facts d hd
  have hmem : dc d ∉ CHARSET := by simpa using hcs
  simp [encodeLoop, hmem, hdig]

theorem encodeLoop_digit3 (d : Nat) (hd : d < 10) (cs : List Char) (count : Nat) :
    encodeLoop 3 (dc d :: cs) count =
      encodeLoop 4 cs (u32add count (u32add (u32mul d BUCKET4_SIZE) SUFFIX_SIZE)) := by
  obtain ⟨-, -, hcs, -, hdig, -, -⟩ := dc_facts d hd
  have hmem : dc d ∉ CHARSET := by simpa using hcs
  simp [encodeLoop, hmem, hdig]

theorem encodeLoop_sfx (i : Nat) (hi : i ≠ 4) (c : Char) (cs : List Char)
    (hc : CHARSET.contains c = true) (k : Nat) (hk : suffix_offset (c :: cs) = some k)
    (count : Nat) : encodeLoop i (c :: cs) count = .ok (u32add count k) := by
  have hmem : c ∈ CHARSET := by simpa using hc
  simp [encodeLoop, hi, hmem, hk]

theorem encodeLoop_pos4 (c : Char) (j : Nat) (hc : charIndex ALLCHARS c = some j)
    (cs : List Char) (count : Nat) :
    encodeLoop 4 (c :: cs) count = .ok (u32add count (j + 1)) := by
  simp [encodeLoop, hc]

/-- The encoder loop on a whole valid suffix adds the suffix offset. -/
theorem encodeLoop_sfx_any (i : Nat) (hi : i ≠ 4) (sfx : List Char)
    (hv : validSuffix sfx = true) (k : Nat) (hk : suffix_offset sfx = some k)
    (count : Nat) (hcnt : count + k < 2 ^ 32) :
    encodeLoop i sfx count = .ok (count + k) := by
  rcases sfx with _ | ⟨a, rest⟩
  · have hk0 : (0 : Nat) = k := by simpa [suffix_offset] using hk
    rw [encodeLoop_nil, ← hk0, Nat.add_zero]
  · have hca : CHARSET.contains a = true := by
      have := validSuffix_mem _ hv a (by simp)
      simpa using this
    rw [encodeLoop_sfx i hi a rest hca k hk, u32add_eq _ _ hcnt]

/-- Finishing step of the encoder: bind the loop result into the range check. -/
theorem encode_finish (v : Nat) (hv : v ≤ 915399) :
    (Except.ok v : Except String Nat).bind (fun count =>
      if US_MAX < u32add US_BASE count then .error errOutOfUSRange
      else .ok (u32add US_BASE count)) = .ok (US_BASE + v) := by
  show (if US_MAX < u32add US_BASE v then (.error errOutOfUSRange : Except String Nat)
    else .ok (u32add US_BASE v)) = .ok (US_BASE + v)
  have h1 : u32add US_BASE v = US_BASE + v := u32add_eq _ _ (by rw [US_BASE_val]; omega)
  rw [h1, if_neg (by rw [US_MAX_val, US_BASE_val]; omega)]

theorem u32step0 (d1 : Nat) (h1 : 1 ≤ d1) (h9 : d1 ≤ 9) :
    u32add 1 (u32mul (u32sub d1 1) BUCKET1_SIZE) = 1 + (d1 - 1) * BUCKET1_SIZE := by
  rw [u32sub_eq d1 1 h1 (by omega),
      u32mul_eq _ _ (by rw [BUCKET1_SIZE_val]; omega),
      u32add_eq _ _ (by rw [BUCKET1_SIZE_val]; omega)]

theorem u32step (x d B : Nat) (hx : x ≤ 1000000) (hd : d ≤ 9) (hB : B ≤ 101711) :
    u32add x (u32add (u32mul d B) SUFFIX_SIZE) = x + SUFFIX_SIZE + d * B := by
  have hdB : d * B ≤ 9 * 101711 := Nat.mul_le_mul hd hB
  rw [u32mul_eq d B (by omega)]
  rw [u32add_eq (d * B) SUFFIX_SIZE (by rw [SUFFIX_SIZE_val]; omega)]
  rw [u32add_eq x (d * B + SUFFIX_SIZE) (by rw [SUFFIX_SIZE_val]; omega)]
  rw [SUFFIX_SIZE_val]
  omega

/-- Encoder value on the canonical form with one digit and a suffix. -/
theorem encode_F1 (d1 : Nat) (h1 : 1 ≤ d1) (h9 : d1 ≤ 9) (sfx : List Char)
    (hv : validSuffix sfx = true) (k : Nat) (hk : suffix_offset sfx = some k)
    (hk6 : k ≤ 600) :
    us_n_to_icao_u32 ('N' :: dc d1 :: sfx) =
      .ok (US_BASE + (1 + (d1 - 1) * BUCKET1_SIZE + k)) := by
  have hs2 := validSuffix_length sfx hv
  have hd1 := dc_facts d1 (by omega)
  have hall : ∀ c ∈ (dc d1 :: sfx), ALLCHARS.contains c = true := by
    intro c hc
    rcases List.mem_cons.mp hc with h | h
    · subst h; exact hd1.2.2.2.1
    · exact (charset_facts c (validSuffix_mem sfx hv c h)).2.2.2.1
  have hfmt : ∀ i ∈ List.range' 1 ((dc d1 :: sfx).length - 2),
      CHARSET.contains (('N' :: dc d1 :: sfx).getD i ' ') = false := by
    intro i hi
    have hr := List.mem_range'_1.mp hi
    simp only [List.length_cons] at hr
    have hi1 : i = 1 := by omega
    subst hi1
    exact hd1.2.2.1
  rw [us_n_eval (dc d1 :: sfx) (by simp) (by simp only [List.length_cons]; omega) hall hfmt]
  rw [encodeLoop_digit0 d1 (by omega), u32step0 d1 h1 h9,
      encodeLoop_sfx_any 1 (by omega) sfx hv k hk _ (by rw [BUCKET1_SIZE_val]; omega)]
  rw [encode_finish _ (by rw [BUCKET1_SIZE_val]; omega)]

/-- Encoder value on the canonical form with two digits and a suffix. -/
theorem encode_F2 (d1 d2 : Nat) (h1 : 1 ≤ d1) (h9 : d1 ≤ 9) (h29 : d2 ≤ 9)
    (sfx : List Char) (hv : validSuffix sfx = true) (k : Nat)
    (hk : suffix_offset sfx = some k) (hk6 : k ≤ 600) :
    us_n_to_icao_u32 ('N' :: dc d1 :: dc d2 :: sfx) =
      .ok (US_BASE + (1 + (d1 - 1) * BUCKET1_SIZE + SUFFIX_SIZE + d2 * BUCKET2_SIZE + k)) := by
  have hs2 := validSuffix_length sfx hv
  have hd1 := dc_facts d1 (by omega)
  have hd2 := dc_facts d2 (by omega)
  have hall : ∀ c ∈ (dc d1 :: dc d2 :: sfx), ALLCHARS.contains c = true := by
    intro c hc
    rcases List.mem_cons.mp hc with h | h
    · subst h; exact hd1.2.2.2.1
    rcases List.mem_cons.mp h with h | h
    · subst h; exact hd2.2.2.2.1
    · exact (charset_facts c (validSuffix_mem sfx hv c h)).2.2.2.1
  have hfmt : ∀ i ∈ List.range' 1 ((dc d1 :: dc d2 :: sfx).length - 2),
      CHARSET.contains (('N' :: dc d1 :: dc d2 :: sfx).getD i ' ') = false := by
    intro i hi
    obtain ⟨hr1, hr2⟩ := List.mem_range'_1.mp hi
    simp only [List.length_cons] at hr2
    have hub : i ≤ 2 := by omega
    interval_cases i
    · exact hd1.2.2.1
    · exact hd2.2.2.1
  rw [us_n_eval (dc d1 :: dc d2 :: sfx) (by simp) (by simp only [List.length_cons]; omega)
    hall hfmt]
  rw [encodeLoop_digit0 d1 (by omega), u32step0 d1 h1 h9,
      encodeLoop_digit1 d2 (by omega),
      u32step _ d2 BUCKET2_SIZE (by rw [BUCKET1_SIZE_val]; omega) h29
        (by rw [BUCKET2_SIZE_val]; omega),
      encodeLoop_sfx_any 2 (by omega) sfx hv k hk _
        (by rw [BUCKET1_SIZE_val, BUCKET2_SIZE_val, SUFFIX_SIZE_val]; omega)]
  rw [encode_finish _ (by rw [BUCKET1_SIZE_val, BUCKET2_SIZE_val, SUFFIX_SIZE_val]; omega)]

/-- Encoder value on the canonical form with three digits and a suffix. -/
theorem encode_F3 (d1 d2 d3 : Nat) (h1 : 1 ≤ d1) (h9 : d1 ≤ 9) (h29 : d2 ≤ 9) (h39 : d3 ≤ 9)
    (sfx : List Char) (hv : validSuffix sfx = true) (k : Nat)
    (hk : suffix_offset sfx = some k) (hk6 : k ≤ 600) :
    us_n_to_icao_u32 ('N' :: dc d1 :: dc d2 :: dc d3 :: sfx) =
      .ok (US_BASE + (1 + (d1 - 1) * BUCKET1_SIZE + SUFFIX_SIZE + d2 * BUCKET2_SIZE +
        SUFFIX_SIZE + d3 * BUCKET3_SIZE + k)) := by
  have hs2 := validSuffix_length sfx hv
  have hd1 := dc_facts d1 (by omega)
  have hd2 := dc_facts d2 (by omega)
  have hd3 := dc_facts d3 (by omega)
  have hall : ∀ c ∈ (dc d1 :: dc d2 :: dc d3 :: sfx), ALLCHARS.contains c = true := by
    intro c hc
    rcases List.mem_cons.mp hc with h | h
    · subst h; exact hd1.2.2.2.1
    rcases List.mem_cons.mp h with h | h
    · subst h; exact hd2.2.2.2.1
    rcases List.mem_cons.mp h with h | h
    · subst h; exact hd3.2.2.2.1
    · exact (charset_facts c (validSuffix_mem sfx hv c h)).2.2.2.1
  have hfmt : ∀ i ∈ List.range' 1 ((dc d1 :: dc d2 :: dc d3 :: sfx).length - 2),
      CHARSET.contains (('N' :: dc d1 :: dc d2 :: dc d3 :: sfx).getD i ' ') = false := by
    intro i hi
    obtain ⟨hr1, hr2⟩ := List.mem_range'_1.mp hi
    simp only [List.length_cons] at hr2
    have hub : i ≤ 3 := by omega
    interval_cases i
    · exact hd1.2.2.1
    · exact hd2.2.2.1
    · exact hd3.2.2.1
  rw [us_n_eval (dc d1 :: dc d2 :: dc d3 :: sfx) (by simp)
    (by simp only [List.length_cons]; omega) hall hfmt]
  rw [encodeLoop_digit0 d1 (by omega), u32step0 d1 h1 h9,
      encodeLoop_digit1 d2 (by omega),
      u32step _ d2 BUCKET2_SIZE (by rw [BUCKET1_SIZE_val]; omega) h29
        (by rw [BUCKET2_SIZE_val]; omega),
      encodeLoop_digit2 d3 (by omega),
      u32step _ d3 BUCKET3_SIZE
        (by rw [BUCKET1_SIZE_val, BUCKET2_SIZE_val, SUFFIX_SIZE_val]; omega) h39
        (by rw [BUCKET3_SIZE_val]; omega),
      encodeLoop_sfx_any 3 (by omega) sfx hv k hk _
        (by rw [BUCKET1_SIZE_val, BUCKET2_SIZE_val, BUCKET3_SIZE_val, SUFFIX_SIZE_val]; omega)]
  rw [encode_finish _
    (by rw [BUCKET1_SIZE_val, BUCKET2_SIZE_val, BUCKET3_SIZE_val, SUFFIX_SIZE_val]; omega)]

/-- Encoder value on the canonical form with four digits and an optional fifth
character from the 34-symbol alphabet (`none` on the fifth-character slot is
the empty tail). -/
theorem encode_F4 (d1 d2 d3 d4 : Nat) (h1 : 1 ≤ d1) (h9 : d1 ≤ 9) (h29 : d2 ≤ 9)
    (h39 : d3 ≤ 9) (h49 : d4 ≤ 9) (tl : List Char) (v5 : Nat)
    (h5 : (tl = [] ∧ v5 = 0) ∨ (∃ c j, tl = [c] ∧ charIndex ALLCHARS c = some j ∧
      j < 34 ∧ v5 = j + 1)) :
    us_n_to_icao_u32 ('N' :: dc d1 :: dc d2 :: dc d3 :: dc d4 :: tl) =
      .ok (US_BASE + (1 + (d1 - 1) * BUCKET1_SIZE + SUFFIX_SIZE + d2 * BUCKET2_SIZE +
        SUFFIX_SIZE + d3 * BUCKET3_SIZE + SUFFIX_SIZE + d4 * BUCKET4_SIZE + v5)) := by
  have hd1 := dc_facts d1 (by omega)
  have hd2 := dc_facts d2 (by omega)
  have hd3 := dc_facts d3 (by omega)
  have hd4 := dc_facts d4 (by omega)
  have htl1 : tl.length ≤ 1 := by
    rcases h5 with ⟨h, -⟩ | ⟨c, j, h, -, -, -⟩ <;> simp [h]
  have hv5 : v5 ≤ 34 := by
    rcases h5 with ⟨-, h⟩ | ⟨c, j, -, -, hj, h⟩ <;> omega
  have hall : ∀ c ∈ (dc d1 :: dc d2 :: dc d3 :: dc d4 :: tl),
      ALLCHARS.contains c = true := by
    intro c hc
    rcases List.mem_cons.mp hc with h | h
    · subst h; exact hd1.2.2.2.1
    rcases List.mem_cons.mp h with h | h
    · subst h; exact hd2.2.2.2.1
    rcases List.mem_cons.mp h with h | h
    · subst h; exact hd3.2.2.2.1
    rcases List.mem_cons.mp h with h | h
    · subst h; exact hd4.2.2.2.1
    rcases h5 with ⟨htl, -⟩ | ⟨c0, j, htl, hidx, -, -⟩
    · rw [htl] at h; simp at h
    · rw [htl] at h
      simp only [List.mem_singleton] at h
      subst h
      simpa using List.get?_mem (charIndex_spec ALLCHARS c j hidx)
  have hfmt : ∀ i ∈ List.range' 1 ((dc d1 :: dc d2 :: dc d3 :: dc d4 :: tl).length - 2),
      CHARSET.contains (('N' :: dc d1 :: dc d2 :: dc d3 :: dc d4 :: tl).getD i ' ') =
        false := by
    intro i hi
    obtain ⟨hr1, hr2⟩ := List.mem_range'_1.mp hi
    simp only [List.length_cons] at hr2
    have hub : i ≤ 3 := by omega
    interval_cases i
    · exact hd1.2.2.1
    · exact hd2.2.2.1
    · exact hd3.2.2.1
  rw [us_n_eval (dc d1 :: dc d2 :: dc d3 :: dc d4 :: tl) (by simp)
    (by simp only [List.length_cons]; omega) hall hfmt]
  rw [encodeLoop_digit0 d1 (by omega), u32step0 d1 h1 h9,
      encodeLoop_digit1 d2 (by omega),
      u32step _ d2 BUCKET2_SIZE (by rw [BUCKET1_SIZE_val]; omega) h29
        (by rw [BUCKET2_SIZE_val]; omega),
      encodeLoop_digit2 d3 (by omega),
      u32step _ d3 BUCKET3_SIZE
        (by rw [BUCKET1_SIZE_val, BUCKET2_SIZE_val, SUFFIX_SIZE_val]; omega) h39
        (by rw [BUCKET3_SIZE_val]; omega),
      encodeLoop_digit3 d4 (by omega),
      u32step _ d4 BUCKET4_SIZE
        (by rw [BUCKET1_SIZE_val, BUCKET2_SIZE_val, BUCKET3_SIZE_val, SUFFIX_SIZE_val]; omega)
        h49
        (by rw [BUCKET4_SIZE_val]; omega)]
  rcases h5 with ⟨htl, hv0⟩ | ⟨c0, j, htl, hidx, hj, hv5e⟩
  · subst htl
    subst hv0
    rw [encodeLoop_nil]
    rw [encode_finish _ (by
      rw [BUCKET1_SIZE_val, BUCKET2_SIZE_val, BUCKET3_SIZE_val, BUCKET4_SIZE_val,
        SUFFIX_SIZE_val]
      omega)]
    rw [Nat.add_zero]
  · subst htl
    subst hv5e
    rw [encodeLoop_pos4 c0 j hidx, u32add_eq _ _ (by
      rw [BUCKET1_SIZE_val, BUCKET2_SIZE_val, BUCKET3_SIZE_val, BUCKET4_SIZE_val,
        SUFFIX_SIZE_val]
      omega)]
    rw [encode_finish _ (by
      rw [BUCKET1_SIZE_val, BUCKET2_SIZE_val, BUCKET3_SIZE_val, BUCKET4_SIZE_val,
        SUFFIX_SIZE_val]
      omega)]

theorem div_mod_decomp (q r B : Nat) (hB : 0 < B) (hr : r < B) :
    (q * B + r) / B = q ∧ (q * B + r) % B = r := by
  constructor
  · rw [Nat.mul_comm, Nat.mul_add_div hB, Nat.div_eq_of_lt hr, Nat.add_zero]
  · rw [Nat.mul_comm, Nat.mul_add_mod]
    exact Nat.mod_eq_of_lt hr

/-- Digit 4 decode step on a remainder of the four-digit block. -/
theorem decodeLevel4_eval (d4 : Nat) (h49 : d4 ≤ 9) (v5 : Nat) (tl : List Char)
    (h5 : (tl = [] ∧ v5 = 0) ∨ (∃ c j, tl = [c] ∧ charIndex ALLCHARS c = some j ∧
      j < 34 ∧ v5 = j + 1)) (out : List Char) :
    decodeLevel4 (SUFFIX_SIZE + (d4 * BUCKET4_SIZE + v5)) out =
      .ok ((out ++ [dc d4]) ++ tl) := by
  have hv5 : v5 ≤ 34 := by
    rcases h5 with ⟨-, h⟩ | ⟨c, j, -, -, hj, h⟩ <;> omega
  obtain ⟨-, -, -, -, -, -, hnat⟩ := dc_facts d4 (by omega)
  unfold decodeLevel4
  simp only [SUFFIX_SIZE_val, BUCKET4_SIZE_val]
  have e1 : 601 + (d4 * 35 + v5) - 601 = d4 * 35 + v5 := by omega
  rw [e1, (div_mod_decomp d4 v5 35 (by norm_num) (by omega)).1,
      (div_mod_decomp d4 v5 35 (by norm_num) (by omega)).2, hnat]
  rcases h5 with ⟨htl, hv0⟩ | ⟨c0, j, htl, hidx, hj, hv5e⟩
  · subst htl
    subst hv0
    rw [if_pos rfl, List.append_nil]
  · subst htl
    subst hv5e
    rw [if_neg (by omega)]
    have hget : ALLCHARS.get? (j + 1 - 1) = some c0 := by
      simpa using charIndex_spec ALLCHARS c0 j hidx
    rw [hget]

/-- Digit 3 decode step that ends in a suffix. -/
theorem decodeLevel3_sfx (d3 k : Nat) (h39 : d3 ≤ 9) (hk : k ≤ 600) (out : List Char) :
    decodeLevel3 (SUFFIX_SIZE + (d3 * BUCKET3_SIZE + k)) out =
      .ok ((out ++ [dc d3]) ++ get_suffix k) := by
  obtain ⟨-, -, -, -, -, -, hnat⟩ := dc_facts d3 (by omega)
  unfold decodeLevel3
  simp only [SUFFIX_SIZE_val, BUCKET3_SIZE_val]
  have e1 : 601 + (d3 * 951 + k) - 601 = d3 * 951 + k := by omega
  rw [e1, (div_mod_decomp d3 k 951 (by norm_num) (by omega)).1,
      (div_mod_decomp d3 k 951 (by norm_num) (by omega)).2, hnat]
  rw [if_pos (by omega)]

/-- Digit 3 decode step that continues to digit 4. -/
theorem decodeLevel3_next (d3 r : Nat) (h39 : d3 ≤ 9) (hr : SUFFIX_SIZE ≤ r)
    (hrB : r < BUCKET3_SIZE) (out : List Char) :
    decodeLevel3 (SUFFIX_SIZE + (d3 * BUCKET3_SIZE + r)) out =
      decodeLevel4 r (out ++ [dc d3]) := by
  obtain ⟨-, -, -, -, -, -, hnat⟩ := dc_facts d3 (by omega)
  rw [SUFFIX_SIZE_val] at hr
  rw [BUCKET3_SIZE_val] at hrB
  unfold decodeLevel3
  simp only [SUFFIX_SIZE_val, BUCKET3_SIZE_val]
  have e1 : 601 + (d3 * 951 + r) - 601 = d3 * 951 + r := by omega
  rw [e1, (div_mod_decomp d3 r 951 (by norm_num) (by omega)).1,
      (div_mod_decomp d3 r 951 (by norm_num) (by omega)).2, hnat]
  rw [if_neg (by omega)]

/-- Digit 2 decode step that ends in a suffix. -/
theorem decodeLevel2_sfx (d2 k : Nat) (h29 : d2 ≤ 9) (hk : k ≤ 600) (out : List Char) :
    decodeLevel2 (SUFFIX_SIZE + (d2 * BUCKET2_SIZE + k)) out =
      .ok ((out ++ [dc d2]) ++ get_suffix k) := by
  obtain ⟨-, -, -, -, -, -, hnat⟩ := dc_facts d2 (by omega)
  unfold decodeLevel2
  simp only [SUFFIX_SIZE_val, BUCKET2_SIZE_val]
  have e1 : 601 + (d2 * 10111 + k) - 601 = d2 * 10111 + k := by omega
  rw [e1, (div_mod_decomp d2 k 10111 (by norm_num) (by omega)).1,
      (div_mod_decomp d2 k 10111 (by norm_num) (by omega)).2, hnat]
  rw [if_pos (by omega)]

/-- Digit 2 decode step that continues to digit 3. -/
theorem decodeLevel2_next (d2 r : Nat) (h29 : d2 ≤ 9) (hr : SUFFIX_SIZE ≤ r)
    (hrB : r < BUCKET2_SIZE) (out : List Char) :
    decodeLevel2 (SUFFIX_SIZE + (d2 * BUCKET2_SIZE + r)) out =
      decodeLevel3 r (out ++ [dc d2]) := by
  obtain ⟨-, -, -, -, -, -, hnat⟩ := dc_facts d2 (by omega)
  rw [SUFFIX_SIZE_val] at hr
  rw [BUCKET2_SIZE_val] at hrB
  unfold decodeLevel2
  simp only [SUFFIX_SIZE_val, BUCKET2_SIZE_val]
  have e1 : 601 + (d2 * 10111 + r) - 601 = d2 * 10111 + r := by omega
  rw [e1, (div_mod_decomp d2 r 10111 (by norm_num) (by omega)).1,
      (div_mod_decomp d2 r 10111 (by norm_num) (by omega)).2, hnat]
  rw [if_neg (by omega)]

/-- Decoder value on addresses of the one-digit-and-suffix block. -/
theorem decode_F1 (d1 : Nat) (h1 : 1 ≤ d1) (h9 : d1 ≤ 9) (k : Nat) (hk : k ≤ 600) :
    icao_u32_to_us (US_BASE + (1 + (d1 - 1) * BUCKET1_SIZE + k)) =
      .ok ('N' :: dc d1 :: get_suffix k) := by
  have e1 : 10485760 + (1 + (d1 - 1) * 101711 + k) - 10485760 - 1 =
      (d1 - 1) * 101711 + k := by omega
  have e4 : d1 - 1 + 1 = d1 := by omega
  obtain ⟨-, -, -, -, -, -, hnat⟩ := dc_facts d1 (by omega)
  unfold icao_u32_to_us
  simp only [US_BASE_val, US_MAX_val, SUFFIX_SIZE_val, BUCKET1_SIZE_val]
  rw [if_neg (by omega)]
  rw [e1, (div_mod_decomp (d1 - 1) k 101711 (by norm_num) (by omega)).1,
      (div_mod_decomp (d1 - 1) k 101711 (by norm_num) (by omega)).2, e4, hnat]
  rw [if_pos (by omega)]
  rfl

/-- First digit decode step that continues to digit 2. -/
theorem decode_top_next (d1 r : Nat) (h1 : 1 ≤ d1) (h9 : d1 ≤ 9)
    (hr : SUFFIX_SIZE ≤ r) (hrB : r < BUCKET1_SIZE) :
    icao_u32_to_us (US_BASE + (1 + (d1 - 1) * BUCKET1_SIZE + r)) =
      decodeLevel2 r ['N', dc d1] := by
  rw [SUFFIX_SIZE_val] at hr
  rw [BUCKET1_SIZE_val] at hrB
  have e1 : 10485760 + (1 + (d1 - 1) * 101711 + r) - 10485760 - 1 =
      (d1 - 1) * 101711 + r := by omega
  have e4 : d1 - 1 + 1 = d1 := by omega
  obtain ⟨-, -, -, -, -, -, hnat⟩ := dc_facts d1 (by omega)
  unfold icao_u32_to_us
  simp only [US_BASE_val, US_MAX_val, SUFFIX_SIZE_val, BUCKET1_SIZE_val]
  rw [if_neg (by omega)]
  rw [e1, (div_mod_decomp (d1 - 1) r 101711 (by norm_num) (by omega)).1,
      (div_mod_decomp (d1 - 1) r 101711 (by norm_num) (by omega)).2, e4, hnat]
  rw [if_neg (by omega)]

/-- Decoder value on addresses of the two-digit-and-suffix block. -/
theorem decode_F2 (d1 d2 : Nat) (h1 : 1 ≤ d1) (h9 : d1 ≤ 9) (h29 : d2 ≤ 9)
    (k : Nat) (hk : k ≤ 600) :
    icao_u32_to_us (US_BASE + (1 + (d1 - 1) * BUCKET1_SIZE + SUFFIX_SIZE +
        d2 * BUCKET2_SIZE + k)) =
      .ok ('N' :: dc d1 :: dc d2 :: get_suffix k) := by
  have hshape : US_BASE + (1 + (d1 - 1) * BUCKET1_SIZE + SUFFIX_SIZE +
      d2 * BUCKET2_SIZE + k) =
      US_BASE + (1 + (d1 - 1) * BUCKET1_SIZE + (SUFFIX_SIZE + (d2 * BUCKET2_SIZE + k))) := by
    omega
  rw [hshape, decode_top_next d1 (SUFFIX_SIZE + (d2 * BUCKET2_SIZE + k)) h1 h9
    (by omega)
    (by simp only [SUFFIX_SIZE_val, BUCKET2_SIZE_val, BUCKET1_SIZE_val]; omega)]
  rw [decodeLevel2_sfx d2 k h29 hk]
  rfl

/-- Decoder value on addresses of the three-digit-and-suffix block. -/
theorem decode_F3 (d1 d2 d3 : Nat) (h1 : 1 ≤ d1) (h9 : d1 ≤ 9) (h29 : d2 ≤ 9)
    (h39 : d3 ≤ 9) (k : Nat) (hk : k ≤ 600) :
    icao_u32_to_us (US_BASE + (1 + (d1 - 1) * BUCKET1_SIZE + SUFFIX_SIZE +
        d2 * BUCKET2_SIZE + SUFFIX_SIZE + d3 * BUCKET3_SIZE + k)) =
      .ok ('N' :: dc d1 :: dc d2 :: dc d3 :: get_suffix k) := by
  have hshape : US_BASE + (1 + (d1 - 1) * BUCKET1_SIZE + SUFFIX_SIZE +
      d2 * BUCKET2_SIZE + SUFFIX_SIZE + d3 * BUCKET3_SIZE + k) =
      US_BASE + (1 + (d1 - 1) * BUCKET1_SIZE +
        (SUFFIX_SIZE + (d2 * BUCKET2_SIZE + (SUFFIX_SIZE + (d3 * BUCKET3_SIZE + k))))) := by
    omega
  rw [hshape, decode_top_next d1 _ h1 h9
    (by omega)
    (by simp only [SUFFIX_SIZE_val, BUCKET2_SIZE_val, BUCKET3_SIZE_val, BUCKET1_SIZE_val]
        omega)]
  rw [decodeLevel2_next d2 _ h29
    (by omega)
    (by simp only [SUFFIX_SIZE_val, BUCKET3_SIZE_val, BUCKET2_SIZE_val]; omega)]
  rw [decodeLevel3_sfx d3 k h39 hk]
  rfl

/-- Decoder value on addresses of the four-digit block, with an optional fifth
character of the 34-symbol alphabet. -/
theorem decode_F4 (d1 d2 d3 d4 : Nat) (h1 : 1 ≤ d1) (h9 : d1 ≤ 9) (h29 : d2 ≤ 9)
    (h39 : d3 ≤ 9) (h49 : d4 ≤ 9) (tl : List Char) (v5 : Nat)
    (h5 : (tl = [] ∧ v5 = 0) ∨ (∃ c j, tl = [c] ∧ charIndex ALLCHARS c = some j ∧
      j < 34 ∧ v5 = j + 1)) :
    icao_u32_to_us (US_BASE + (1 + (d1 - 1) * BUCKET1_SIZE + SUFFIX_SIZE +
        d2 * BUCKET2_SIZE + SUFFIX_SIZE + d3 * BUCKET3_SIZE + SUFFIX_SIZE +
        d4 * BUCKET4_SIZE + v5)) =
      .ok ('N' :: dc d1 :: dc d2 :: dc d3 :: dc d4 :: tl) := by
  have hv5 : v5 ≤ 34 := by
    rcases h5 with ⟨-, h⟩ | ⟨c, j, -, -, hj, h⟩ <;> omega
  have hshape : US_BASE + (1 + (d1 - 1) * BUCKET1_SIZE + SUFFIX_SIZE +
      d2 * BUCKET2_SIZE + SUFFIX_SIZE + d3 * BUCKET3_SIZE + SUFFIX_SIZE +
      d4 * BUCKET4_SIZE + v5) =
      US_BASE + (1 + (d1 - 1) * BUCKET1_SIZE +
        (SUFFIX_SIZE + (d2 * BUCKET2_SIZE +
          (SUFFIX_SIZE + (d3 * BUCKET3_SIZE +
            (SUFFIX_SIZE + (d4 * BUCKET4_SIZE + v5))))))) := by
    omega
  rw [hshape, decode_top_next d1 _ h1 h9
    (by omega)
    (by simp only [SUFFIX_SIZE_val, BUCKET2_SIZE_val, BUCKET3_SIZE_val, BUCKET4_SIZE_val,
          BUCKET1_SIZE_val]
        omega)]
  rw [decodeLevel2_next d2 _ h29
    (by omega)
    (by simp only [SUFFIX_SIZE_val, BUCKET3_SIZE_val, BUCKET4_SIZE_val, BUCKET2_SIZE_val]
        omega)]
  rw [decodeLevel3_next d3 _ h39
    (by omega)
    (by simp only [SUFFIX_SIZE_val, BUCKET4_SIZE_val, BUCKET3_SIZE_val]; omega)]
  rw [decodeLevel4_eval d4 h49 v5 tl h5]
  rfl

/-- Structure of the amended C1 domain: a string accepted by `validNN` is one
of the five canonical shapes (1-4 digits with the first in 1-9, an optional
trailing 1-2 letter suffix after at most three digits, or a fifth character
from the 34-symbol alphabet after four digits). -/
theorem validNN_shapes (s : List Char) (h : validNN s = true) :
    ∃ d1, 1 ≤ d1 ∧ d1 ≤ 9 ∧
      ((∃ sfx, validSuffix sfx = true ∧ s = 'N' :: dc d1 :: sfx) ∨
       (∃ d2 sfx, d2 ≤ 9 ∧ validSuffix sfx = true ∧ s = 'N' :: dc d1 :: dc d2 :: sfx) ∨
       (∃ d2 d3 sfx, d2 ≤ 9 ∧ d3 ≤ 9 ∧ validSuffix sfx = true ∧
          s = 'N' :: dc d1 :: dc d2 :: dc d3 :: sfx) ∨
       (∃ d2 d3 d4 tl v5, d2 ≤ 9 ∧ d3 ≤ 9 ∧ d4 ≤ 9 ∧
          ((tl = [] ∧ v5 = 0) ∨ (∃ c j, tl = [c] ∧ charIndex ALLCHARS c = some j ∧
            j < 34 ∧ v5 = j + 1)) ∧
          s = 'N' :: dc d1 :: dc d2 :: dc d3 :: dc d4 :: tl)) := by
  rcases s with _ | ⟨c0, _ | ⟨c1, rest⟩⟩
  · simp [validNN] at h
  · simp [validNN] at h
  simp only [validNN, Bool.and_eq_true, beq_iff_eq, Bool.not_eq_true',
    beq_eq_false_iff_ne] at h
  obtain ⟨⟨hc0, hc1d, hc10⟩, htail⟩ := h
  subst hc0
  obtain ⟨d1, hd1lt, hdc1⟩ := digits_dc c1 (by simpa using hc1d)
  have hd1pos : 1 ≤ d1 := by
    rcases Nat.eq_zero_or_pos d1 with h0 | h0
    · subst h0
      exact absurd hdc1.symm (by simpa using hc10)
    · exact h0
  subst hdc1
  refine ⟨d1, hd1pos, by omega, ?_⟩
  rcases rest with _ | ⟨x2, rest2⟩
  · exact Or.inl ⟨[], rfl, rfl⟩
  by_cases hx2 : CHARSET.contains x2 = true
  · rw [show specTail 1 (x2 :: rest2) =
        (if CHARSET.contains x2 then validSuffix (x2 :: rest2)
         else DIGITS.contains x2 && specTail 2 rest2) from rfl, if_pos hx2] at htail
    exact Or.inl ⟨x2 :: rest2, htail, rfl⟩
  · rw [show specTail 1 (x2 :: rest2) =
        (if CHARSET.contains x2 then validSuffix (x2 :: rest2)
         else DIGITS.contains x2 && specTail 2 rest2) from rfl,
        if_neg hx2, Bool.and_eq_true] at htail
    obtain ⟨hx2d, htail2⟩ := htail
    obtain ⟨d2, hd2lt, hdc2⟩ := digits_dc x2 (by simpa using hx2d)
    subst hdc2
    rcases rest2 with _ | ⟨x3, rest3⟩
    · exact Or.inr (Or.inl ⟨d2, [], by omega, rfl, rfl⟩)
    by_cases hx3 : CHARSET.contains x3 = true
    · rw [show specTail 2 (x3 :: rest3) =
          (if CHARSET.contains x3 then validSuffix (x3 :: rest3)
           else DIGITS.contains x3 && specTail 3 rest3) from rfl, if_pos hx3] at htail2
      exact Or.inr (Or.inl ⟨d2, x3 :: rest3, by omega, htail2, rfl⟩)
    · rw [show specTail 2 (x3 :: rest3) =
          (if CHARSET.contains x3 then validSuffix (x3 :: rest3)
           else DIGITS.contains x3 && specTail 3 rest3) from rfl,
          if_neg hx3, Bool.and_eq_true] at htail2
      obtain ⟨hx3d, htail3⟩ := htail2
      obtain ⟨d3, hd3lt, hdc3⟩ := digits_dc x3 (by simpa using hx3d)
      subst hdc3
      rcases rest3 with _ | ⟨x4, rest4⟩
      · exact Or.inr (Or.inr (Or.inl ⟨d2, d3, [], by omega, by omega, rfl, rfl⟩))
      by_cases hx4 : CHARSET.contains x4 = true
      · rw [show specTail 3 (x4 :: rest4) =
            (if CHARSET.contains x4 then validSuffix (x4 :: rest4)
             else DIGITS.contains x4 && specTail 4 rest4) from rfl, if_pos hx4] at htail3
        exact Or.inr (Or.inr (Or.inl ⟨d2, d3, x4 :: rest4, by omega, by omega, htail3, rfl⟩))
      · rw [show specTail 3 (x4 :: rest4) =
            (if CHARSET.contains x4 then validSuffix (x4 :: rest4)
             else DIGITS.contains x4 && specTail 4 rest4) from rfl,
            if_neg hx4, Bool.and_eq_true] at htail3
        obtain ⟨hx4d, htail4⟩ := htail3
        obtain ⟨d4, hd4lt, hdc4⟩ := digits_dc x4 (by simpa using hx4d)
        subst hdc4
        rcases rest4 with _ | ⟨x5, rest5⟩
        · exact Or.inr (Or.inr (Or.inr ⟨d2, d3, d4, [], 0, by omega, by omega, by omega,
            Or.inl ⟨rfl, rfl⟩, rfl⟩))
        rcases rest5 with _ | ⟨x6, rest6⟩
        · have hx5 : ALLCHARS.contains x5 = true := by
            simpa [specTail] using htail4
          obtain ⟨j, hj, hidx, -⟩ := allchars_index x5 (by simpa using hx5)
          exact Or.inr (Or.inr (Or.inr ⟨d2, d3, d4, [x5], j + 1, by omega, by omega,
            by omega, Or.inr ⟨x5, j, rfl, hidx, hj, rfl⟩, rfl⟩))
        · exact absurd htail4 (by simp [specTail])

/-- Address-side round trip: decoding any address of the US block and
re-encoding the result returns the address. -/
theorem roundtrip_addr (a : Nat) (hlo : 0xA00001 ≤ a) (hhi : a ≤ 0xADF7C7) :
    ∃ s, icao_u32_to_us a = .ok s ∧ us_n_to_icao_u32 s = .ok a := by
  obtain ⟨q, o, hqo, hq8, hoB⟩ :
      ∃ q o, a = 10485760 + (1 + q * 101711 + o) ∧ q ≤ 8 ∧ o < 101711 :=
    ⟨(a - 10485761) / 101711, (a - 10485761) % 101711, by omega, by omega, by omega⟩
  have hd11 : 1 ≤ q + 1 := by omega
  have hd19 : q + 1 ≤ 9 := by omega
  by_cases ho1 : o < 601
  · have hstep : a = US_BASE + (1 + ((q + 1) - 1) * BUCKET1_SIZE + o) := by
      simp only [US_BASE_val, BUCKET1_SIZE_val]
      omega
    refine ⟨'N' :: dc (q + 1) :: get_suffix o, ?_, ?_⟩
    · rw [hstep]
      exact decode_F1 (q + 1) hd11 hd19 o (by omega)
    · rw [encode_F1 (q + 1) hd11 hd19 (get_suffix o) (get_suffix_valid o (by omega)) o
        (suffix_offset_get o (by omega)) (by omega), ← hstep]
  obtain ⟨q2, r2, h2eq, h2q, h2r⟩ :
      ∃ q2 r2, o = 601 + (q2 * 10111 + r2) ∧ q2 ≤ 9 ∧ r2 < 10111 :=
    ⟨(o - 601) / 10111, (o - 601) % 10111, by omega, by omega, by omega⟩
  by_cases hr2 : r2 < 601
  · have hstep : a = US_BASE + (1 + ((q + 1) - 1) * BUCKET1_SIZE + SUFFIX_SIZE +
        q2 * BUCKET2_SIZE + r2) := by
      simp only [US_BASE_val, BUCKET1_SIZE_val, BUCKET2_SIZE_val, SUFFIX_SIZE_val]
      omega
    refine ⟨'N' :: dc (q + 1) :: dc q2 :: get_suffix r2, ?_, ?_⟩
    · rw [hstep]
      exact decode_F2 (q + 1) q2 hd11 hd19 h2q r2 (by omega)
    · rw [encode_F2 (q + 1) q2 hd11 hd19 h2q (get_suffix r2) (get_suffix_valid r2 (by omega))
        r2 (suffix_offset_get r2 (by omega)) (by omega), ← hstep]
  obtain ⟨q3, r3, h3eq, h3q, h3r⟩ :
      ∃ q3 r3, r2 = 601 + (q3 * 951 + r3) ∧ q3 ≤ 9 ∧ r3 < 951 :=
    ⟨(r2 - 601) / 951, (r2 - 601) % 951, by omega, by omega, by omega⟩
  by_cases hr3 : r3 < 601
  · have hstep : a = US_BASE + (1 + ((q + 1) - 1) * BUCKET1_SIZE + SUFFIX_SIZE +
        q2 * BUCKET2_SIZE + SUFFIX_SIZE + q3 * BUCKET3_SIZE + r3) := by
      simp only [US_BASE_val, BUCKET1_SIZE_val, BUCKET2_SIZE_val, BUCKET3_SIZE_val,
        SUFFIX_SIZE_val]
      omega
    refine ⟨'N' :: dc (q + 1) :: dc q2 :: dc q3 :: get_suffix r3, ?_, ?_⟩
    · rw [hstep]
      exact decode_F3 (q + 1) q2 q3 hd11 hd19 h2q h3q r3 (by omega)
    · rw [encode_F3 (q + 1) q2 q3 hd11 hd19 h2q h3q (get_suffix r3)
        (get_suffix_valid r3 (by omega)) r3 (suffix_offset_get r3 (by omega)) (by omega),
        ← hstep]
  obtain ⟨q4, r4, h4eq, h4q, h4r⟩ :
      ∃ q4 r4, r3 = 601 + (q4 * 35 + r4) ∧ q4 ≤ 9 ∧ r4 < 35 :=
    ⟨(r3 - 601) / 35, (r3 - 601) % 35, by omega, by omega, by omega⟩
  have hstep : a = US_BASE + (1 + ((q + 1) - 1) * BUCKET1_SIZE + SUFFIX_SIZE +
      q2 * BUCKET2_SIZE + SUFFIX_SIZE + q3 * BUCKET3_SIZE + SUFFIX_SIZE +
      q4 * BUCKET4_SIZE + r4) := by
    simp only [US_BASE_val, BUCKET1_SIZE_val, BUCKET2_SIZE_val, BUCKET3_SIZE_val,
      BUCKET4_SIZE_val, SUFFIX_SIZE_val]
    omega
  by_cases hr4 : r4 = 0
  · subst hr4
    refine ⟨'N' :: dc (q + 1) :: dc q2 :: dc q3 :: dc q4 :: [], ?_, ?_⟩
    · rw [hstep]
      exact decode_F4 (q + 1) q2 q3 q4 hd11 hd19 h2q h3q h4q [] 0 (Or.inl ⟨rfl, rfl⟩)
    · rw [encode_F4 (q + 1) q2 q3 q4 hd11 hd19 h2q h3q h4q [] 0 (Or.inl ⟨rfl, rfl⟩),
        ← hstep]
  · obtain ⟨hidx, -⟩ := allchars_getD_index (r4 - 1) (by omega)
    have h5 : (([ALLCHARS.getD (r4 - 1) 'A'] : List Char) = [] ∧ r4 = 0) ∨
        (∃ c j, ([ALLCHARS.getD (r4 - 1) 'A'] : List Char) = [c] ∧
          charIndex ALLCHARS c = some j ∧ j < 34 ∧ r4 = j + 1) :=
      Or.inr ⟨ALLCHARS.getD (r4 - 1) 'A', r4 - 1, rfl, hidx, by omega, by omega⟩
    refine ⟨'N' :: dc (q + 1) :: dc q2 :: dc q3 :: dc q4 :: [ALLCHARS.getD (r4 - 1) 'A'],
      ?_, ?_⟩
    · rw [hstep]
      exact decode_F4 (q + 1) q2 q3 q4 hd11 hd19 h2q h3q h4q _ r4 h5
    · rw [encode_F4 (q + 1) q2 q3 q4 hd11 hd19 h2q h3q h4q _ r4 h5, ← hstep]

/-- String-side round trip: encoding a string of the amended domain and
decoding the result returns the string, and the address lies in the US
block. -/
theorem roundtrip_str (s : List Char) (h : validNN s = true) :
    ∃ a, us_n_to_icao_u32 s = .ok a ∧ icao_u32_to_us a = .ok s ∧
      0xA00001 ≤ a ∧ a ≤ 0xADF7C7 := by
  obtain ⟨d1, h1, h9, hsh⟩ := validNN_shapes s h
  rcases hsh with ⟨sfx, hv, rfl⟩ | ⟨d2, sfx, h2, hv, rfl⟩ |
    ⟨d2, d3, sfx, h2, h3, hv, rfl⟩ | ⟨d2, d3, d4, tl, v5, h2, h3, h4, h5, rfl⟩
  · obtain ⟨k, hk, hk6, hks⟩ := suffix_offset_of_valid sfx hv
    refine ⟨US_BASE + (1 + (d1 - 1) * BUCKET1_SIZE + k),
      encode_F1 d1 h1 h9 sfx hv k hk hk6, ?_, ?_, ?_⟩
    · rw [decode_F1 d1 h1 h9 k hk6, hks]
    · simp only [US_BASE_val, BUCKET1_SIZE_val]
      omega
    · simp only [US_BASE_val, BUCKET1_SIZE_val]
      omega
  · obtain ⟨k, hk, hk6, hks⟩ := suffix_offset_of_valid sfx hv
    refine ⟨US_BASE + (1 + (d1 - 1) * BUCKET1_SIZE + SUFFIX_SIZE + d2 * BUCKET2_SIZE + k),
      encode_F2 d1 d2 h1 h9 h2 sfx hv k hk hk6, ?_, ?_, ?_⟩
    · rw [decode_F2 d1 d2 h1 h9 h2 k hk6, hks]
    · simp only [US_BASE_val, BUCKET1_SIZE_val, BUCKET2_SIZE_val, SUFFIX_SIZE_val]
      omega
    · simp only [US_BASE_val, BUCKET1_SIZE_val, BUCKET2_SIZE_val, SUFFIX_SIZE_val]
      omega
  · obtain ⟨k, hk, hk6, hks⟩ := suffix_offset_of_valid sfx hv
    refine ⟨US_BASE + (1 + (d1 - 1) * BUCKET1_SIZE + SUFFIX_SIZE + d2 * BUCKET2_SIZE +
        SUFFIX_SIZE + d3 * BUCKET3_SIZE + k),
      encode_F3 d1 d2 d3 h1 h9 h2 h3 sfx hv k hk hk6, ?_, ?_, ?_⟩
    · rw [decode_F3 d1 d2 d3 h1 h9 h2 h3 k hk6, hks]
    · simp only [US_BASE_val, BUCKET1_SIZE_val, BUCKET2_SIZE_val, BUCKET3_SIZE_val,
        SUFFIX_SIZE_val]
      omega
    · simp only [US_BASE_val, BUCKET1_SIZE_val, BUCKET2_SIZE_val, BUCKET3_SIZE_val,
        SUFFIX_SIZE_val]
      omega
  · have hv5 : v5 ≤ 34 := by
      rcases h5 with ⟨-, hh⟩ | ⟨c, j, -, -, hj, hh⟩ <;> omega
    refine ⟨US_BASE + (1 + (d1 - 1) * BUCKET1_SIZE + SUFFIX_SIZE + d2 * BUCKET2_SIZE +
        SUFFIX_SIZE + d3 * BUCKET3_SIZE + SUFFIX_SIZE + d4 * BUCKET4_SIZE + v5),
      encode_F4 d1 d2 d3 d4 h1 h9 h2 h3 h4 tl v5 h5, ?_, ?_, ?_⟩
    · exact decode_F4 d1 d2 d3 d4 h1 h9 h2 h3 h4 tl v5 h5
    · simp only [US_BASE_val, BUCKET1_SIZE_val, BUCKET2_SIZE_val, BUCKET3_SIZE_val,
        BUCKET4_SIZE_val, SUFFIX_SIZE_val]
      omega
    · simp only [US_BASE_val, BUCKET1_SIZE_val, BUCKET2_SIZE_val, BUCKET3_SIZE_val,
        BUCKET4_SIZE_val, SUFFIX_SIZE_val]
      omega

theorem toNat_ofNat_valid (n : Nat) (h : n < 55296) : (Char.ofNat n).toNat = n := by
  rw [Char.ofNat, dif_pos (Or.inl h)]
  show (UInt32.ofNat' n _).toNat = n
  simp [UInt32.ofNat', UInt32.toNat]

theorem ws_upper (c : Char) : isRustWhitespace (toAsciiUpper c) = isRustWhitespace c := by
  by_cases h : 97 ≤ c.toNat ∧ c.toNat ≤ 122
  · have e1 : toAsciiUpper c = Char.ofNat (c.toNat - 32) := by
      simp only [toAsciiUpper]
      rw [if_pos h]
    have htn : (Char.ofNat (c.toNat - 32)).toNat = c.toNat - 32 :=
      toNat_ofNat_valid _ (by omega)
    rw [e1]
    have h1 : isRustWhitespace (Char.ofNat (c.toNat - 32)) = false := by
      simp only [isRustWhitespace, htn, decide_eq_false_iff_not]
      omega
    have h2 : isRustWhitespace c = false := by
      simp only [isRustWhitespace, decide_eq_false_iff_not]
      omega
    rw [h1, h2]
  · have e1 : toAsciiUpper c = c := by
      simp only [toAsciiUpper]
      rw [if_neg h]
    rw [e1]

theorem upper_upper (c : Char) : toAsciiUpper (toAsciiUpper c) = toAsciiUpper c := by
  by_cases h : 97 ≤ c.toNat ∧ c.toNat ≤ 122
  · have e1 : toAsciiUpper c = Char.ofNat (c.toNat - 32) := by
      simp only [toAsciiUpper]
      rw [if_pos h]
    have htn : (Char.ofNat (c.toNat - 32)).toNat = c.toNat - 32 :=
      toNat_ofNat_valid _ (by omega)
    have e2 : toAsciiUpper (Char.ofNat (c.toNat - 32)) = Char.ofNat (c.toNat - 32) := by
      simp only [toAsciiUpper]
      rw [if_neg (by rw [htn]; omega)]
    rw [e1, e2]
  · have e1 : toAsciiUpper c = c := by
      simp only [toAsciiUpper]
      rw [if_neg h]
    rw [e1, e1]

theorem dropWhile_map_upper (l : List Char) :
    (l.map toAsciiUpper).dropWhile isRustWhitespace =
      (l.dropWhile isRustWhitespace).map toAsciiUpper := by
  induction l with
  | nil => rfl
  | cons a as ih =>
    simp only [List.map_cons, List.dropWhile_cons, ws_upper a]
    by_cases h : isRustWhitespace a = true
    · rw [if_pos h, if_pos h]
      exact ih
    · rw [if_neg (by simp [h]), if_neg (by simp [h])]
      rfl

theorem trim_as_rdrop (l : List Char) :
    trim l = List.rdropWhile isRustWhitespace (l.dropWhile isRustWhitespace) := rfl

theorem trim_map_upper (l : List Char) :
    trim (l.map toAsciiUpper) = (trim l).map toAsciiUpper := by
  unfold trim
  rw [dropWhile_map_upper, ← List.map_reverse, dropWhile_map_upper, ← List.map_reverse]

/-- Dropping leading whitespace is a no-op on the output of `trim`-style
right-dropping of an already left-trimmed list. -/
theorem dropWhile_rdropWhile_fix (l : List Char) :
    (List.rdropWhile isRustWhitespace (l.dropWhile isRustWhitespace)).dropWhile
        isRustWhitespace =
      List.rdropWhile isRustWhitespace (l.dropWhile isRustWhitespace) := by
  rcases hR : List.rdropWhile isRustWhitespace (l.dropWhile isRustWhitespace) with _ | ⟨a, r⟩
  · rfl
  · obtain ⟨t, ht⟩ :=
      List.rdropWhile_prefix isRustWhitespace (l.dropWhile isRustWhitespace)
    rw [hR] at ht
    have hd : l.dropWhile isRustWhitespace = a :: (r ++ t) := by
      rw [← ht]
      rfl
    have hne : l.dropWhile isRustWhitespace ≠ [] := by
      rw [hd]
      simp
    have hhead := List.head_dropWhile_not isRustWhitespace l hne
    have ha : ¬ isRustWhitespace a = true := by
      have h2 : (l.dropWhile isRustWhitespace).head hne = a := by
        simp [hd]
      rw [h2] at hhead
      simp [hhead]
    rw [List.dropWhile_cons, if_neg ha]

theorem trim_trim (l : List Char) : trim (trim l) = trim l := by
  rw [trim_as_rdrop l, trim_as_rdrop, dropWhile_rdropWhile_fix,
    List.rdropWhile_idempotent]

theorem normalize_idem (s : List Char) :
    (trim ((trim s).map toAsciiUpper)).map toAsciiUpper = (trim s).map toAsciiUpper := by
  rw [trim_map_upper, trim_trim, List.map_map]
  have hcomp : toAsciiUpper ∘ toAsciiUpper = toAsciiUpper := funext upper_upper
  rw [hcomp]

theorem us_n_normalize (s : List Char) :
    us_n_to_icao_u32 ((trim s).map toAsciiUpper) = us_n_to_icao_u32 s := by
  unfold us_n_to_icao_u32
  rw [normalize_idem]

theorem trim_head_N (l : List Char) : ∃ l2, trim ('N' :: l) = 'N' :: l2 := by
  have hL : ('N' :: l).dropWhile isRustWhitespace = 'N' :: l := by
    rw [List.dropWhile_cons, if_neg (by decide)]
  rw [trim_as_rdrop, hL]
  rcases hR : List.rdropWhile isRustWhitespace ('N' :: l) with _ | ⟨a, r⟩
  · exfalso
    have := List.rdropWhile_eq_nil_iff.mp hR 'N' (by simp)
    exact absurd this (by decide)
  · obtain ⟨t, ht⟩ := List.rdropWhile_prefix isRustWhitespace ('N' :: l)
    rw [hR] at ht
    have ha : a = 'N' := by
      have h4 := congrArg List.head? ht
      simpa using h4
    exact ⟨r, by rw [ha]⟩

theorem trim_upper_head_N (s : List Char) (h : s.head? = some 'N') :
    ((trim s).map toAsciiUpper).head? = some 'N' := by
  rcases s with _ | ⟨c, l⟩
  · simp at h
  · have hc : c = 'N' := by simpa using h
    subst hc
    obtain ⟨l2, h2⟩ := trim_head_N l
    rw [h2]
    simp only [List.map_cons, List.head?_cons]
    rw [show toAsciiUpper 'N' = 'N' from by decide]

/-- C1 counterexample: the claim as stated is false.  The string consisting of
the bare letter `N` is in the claimed domain of section 4.3 (the letter `N`
followed by zero characters), the encoder maps it to `0xA00001`, but decoding
`0xA00001` returns `N1`, not `N`.  So decode-after-encode is not the identity
on the claimed domain. -/
theorem c1_counterexample :
    specValidNN ['N'] = true ∧
    us_n_to_icao_u32 ['N'] = .ok 0xA00001 ∧
    icao_u32_to_us 0xA00001 = .ok ['N', '1'] ∧
    (['N', '1'] : List Char) ≠ ['N'] :=
  ⟨rfl, rfl, rfl, by decide⟩

/-- C1 (amended): the N-Number codec is a bijection between the valid
N-Number strings whose remainder is nonempty and begins with a digit 1-9
(`validNN`: up to four digits, then an optional 1-2-letter suffix, with a
fifth remainder character drawn from the 34-symbol alphabet) and the integer
interval `[0xA00001, 0xADF7C7]`: for every such string, decoding the result
of encoding it returns the string, and the encoded address lies in the
interval; for every address in the interval, encoding the result of decoding
it returns the address. -/
theorem c1_nnumber_codec_bijection (s : List Char) (a : Nat)
    (hs : validNN s = true) (ha1 : 0xA00001 ≤ a) (ha2 : a ≤ 0xADF7C7) :
    (∃ b, us_n_to_icao_u32 s = .ok b ∧ icao_u32_to_us b = .ok s ∧
      0xA00001 ≤ b ∧ b ≤ 0xADF7C7) ∧
    (∃ t, icao_u32_to_us a = .ok t ∧ us_n_to_icao_u32 t = .ok a) :=
  ⟨roundtrip_str s hs, roundtrip_addr a ha1 ha2⟩

theorem c1_nnumber_codec_bijection_witness :
    (∃ b, us_n_to_icao_u32 ['N', '8', '4', '3', '7', 'D'] = .ok b ∧
      icao_u32_to_us b = .ok ['N', '8', '4', '3', '7', 'D'] ∧
      0xA00001 ≤ b ∧ b ≤ 0xADF7C7) ∧
    (∃ t, icao_u32_to_us 0xAB8E4F = .ok t ∧ us_n_to_icao_u32 t = .ok 0xAB8E4F) :=
  c1_nnumber_codec_bijection ['N', '8', '4', '3', '7', 'D'] 0xAB8E4F (by decide)
    (by decide) (by decide)

/-- C3 counterexample: the claim as stated is false.  At the input `N2` the
encoder returns `0xA18D50`, while the claimed positional formula (digit times
`BUCKET1_SIZE` at remainder position 0) gives `0xA31A9F`: the code adds
`(digit - 1) * BUCKET1_SIZE` at position 0, not `digit * BUCKET1_SIZE`. -/
theorem c3_counterexample :
    us_n_to_icao_u32 ['N', '2'] = .ok 0xA18D50 ∧
    specC3Address [2] = 0xA31A9F ∧
    (0xA18D50 : Nat) ≠ 0xA31A9F :=
  ⟨rfl, rfl, by decide⟩

/-- C3 (amended): the encoder follows the positional formula with the digit
at remainder position 0 contributing `(digit - 1) * BUCKET1_SIZE` (no
`SUFFIX_SIZE` term), and a digit at remainder position `1 <= i <= 3`
contributing `digit * BUCKET(i+1)_SIZE + SUFFIX_SIZE`; the accumulator starts
at 1 and the final address is `0xA00000` plus the accumulator. -/
theorem c3_positional_formula (d1 d2 d3 d4 : Nat) (h1 : 1 ≤ d1) (h9 : d1 ≤ 9)
    (h2 : d2 ≤ 9) (h3 : d3 ≤ 9) (h4 : d4 ≤ 9) :
    us_n_to_icao_u32 ['N', dc d1] = .ok (US_BASE + (1 + (d1 - 1) * BUCKET1_SIZE)) ∧
    us_n_to_icao_u32 ['N', dc d1, dc d2] =
      .ok (US_BASE + (1 + (d1 - 1) * BUCKET1_SIZE + SUFFIX_SIZE + d2 * BUCKET2_SIZE)) ∧
    us_n_to_icao_u32 ['N', dc d1, dc d2, dc d3] =
      .ok (US_BASE + (1 + (d1 - 1) * BUCKET1_SIZE + SUFFIX_SIZE + d2 * BUCKET2_SIZE +
        SUFFIX_SIZE + d3 * BUCKET3_SIZE)) ∧
    us_n_to_icao_u32 ['N', dc d1, dc d2, dc d3, dc d4] =
      .ok (US_BASE + (1 + (d1 - 1) * BUCKET1_SIZE + SUFFIX_SIZE + d2 * BUCKET2_SIZE +
        SUFFIX_SIZE + d3 * BUCKET3_SIZE + SUFFIX_SIZE + d4 * BUCKET4_SIZE)) := by
  refine ⟨?_, ?_, ?_, ?_⟩
  · have h := encode_F1 d1 h1 h9 [] rfl 0 rfl (by omega)
    rw [Nat.add_zero] at h
    exact h
  · have h := encode_F2 d1 d2 h1 h9 h2 [] rfl 0 rfl (by omega)
    rw [Nat.add_zero] at h
    exact h
  · have h := encode_F3 d1 d2 d3 h1 h9 h2 h3 [] rfl 0 rfl (by omega)
    rw [Nat.add_zero] at h
    exact h
  · have h := encode_F4 d1 d2 d3 d4 h1 h9 h2 h3 h4 [] 0 (Or.inl ⟨rfl, rfl⟩)
    rw [Nat.add_zero] at h
    exact h

theorem c3_positional_formula_witness :
    us_n_to_icao_u32 ['N', dc 9, dc 9, dc 9, dc 9] =
      .ok (US_BASE + (1 + (9 - 1) * BUCKET1_SIZE + SUFFIX_SIZE + 9 * BUCKET2_SIZE +
        SUFFIX_SIZE + 9 * BUCKET3_SIZE + SUFFIX_SIZE + 9 * BUCKET4_SIZE)) :=
  (c3_positional_formula 9 9 9 9 (by decide) (by decide) (by decide) (by decide)
    (by decide)).2.2.2

/-- C4: the codec maps the boundary and sample literals exactly and in both
directions, both at the `u32` level and through the public 3-byte interface:
`N1` to `0xA00001`, `N99999` to `0xADF7C7`, `N8437D` to `0xAB8E4F`, and
back. -/
theorem c4_boundary_literals :
    us_n_to_icao_u32 ['N', '1'] = .ok 0xA00001 ∧
    icao_u32_to_us 0xA00001 = .ok ['N', '1'] ∧
    us_n_to_icao_u32 ['N', '9', '9', '9', '9', '9'] = .ok 0xADF7C7 ∧
    icao_u32_to_us 0xADF7C7 = .ok ['N', '9', '9', '9', '9', '9'] ∧
    us_n_to_icao_u32 ['N', '8', '4', '3', '7', 'D'] = .ok 0xAB8E4F ∧
    icao_u32_to_us 0xAB8E4F = .ok ['N', '8', '4', '3', '7', 'D'] ∧
    registration_to_icao ['N', '1'] = .ok (0xA0, 0x00, 0x01) ∧
    icao_to_registration (0xA0, 0x00, 0x01) = .ok ['N', '1'] ∧
    registration_to_icao ['N', '9', '9', '9', '9', '9'] = .ok (0xAD, 0xF7, 0xC7) ∧
    icao_to_registration (0xAD, 0xF7, 0xC7) = .ok ['N', '9', '9', '9', '9', '9'] ∧
    registration_to_icao ['N', '8', '4', '3', '7', 'D'] = .ok (0xAB, 0x8E, 0x4F) ∧
    icao_to_registration (0xAB, 0x8E, 0x4F) = .ok ['N', '8', '4', '3', '7', 'D'] :=
  ⟨rfl, rfl, rfl, rfl, rfl, rfl, rfl, rfl, rfl, rfl, rfl, rfl⟩

/-- C8: the claim is false on the code and the code is the slip.  The input
`N0` passes the character and format validation, yet the first-digit branch
computes `(0 - 1) * BUCKET1_SIZE` in `u32`, which underflows: under wrapping
(release) semantics the sum wraps around and `us_n_to_icao_u32` returns
`Ok(0x9E72B2)`, an address strictly below the US block, and the public
`registration_to_icao` returns it as a success; in a debug build the same
subtraction panics. -/
theorem c8_encoder_underflow_on_N0 :
    us_n_to_icao_u32 ['N', '0'] = .ok 0x9E72B2 ∧
    (0x9E72B2 : Nat) < 0xA00001 ∧
    registration_to_icao ['N', '0'] = .ok (0x9E, 0x72, 0xB2) ∧
    u32sub 0 1 = 2 ^ 32 - 1 :=
  ⟨rfl, by decide, rfl, rfl⟩

/-- C10: `registration_to_icao` requires the raw first character to be the
uppercase letter `N` before any normalization (in particular a leading
lowercase `n` or leading whitespace is rejected with the unsupported-prefix
error), and after that check the input is trimmed of surrounding whitespace
and uppercased, so encoding any string beginning with `N` gives the same
result as encoding its trimmed, uppercased form. -/
theorem c10_raw_N_check_then_normalize :
    (∀ s : List Char, s.head? ≠ some 'N' →
      registration_to_icao s = .error errUnsupported) ∧
    (∀ s : List Char, s.head? = some 'N' →
      registration_to_icao s = registration_to_icao ((trim s).map toAsciiUpper)) := by
  constructor
  · intro s hs
    unfold registration_to_icao
    rw [if_neg hs]
  · intro s hs
    unfold registration_to_icao
    rw [if_pos hs, if_pos (trim_upper_head_N s hs)]
    rw [us_n_normalize s]

theorem c10_raw_N_check_then_normalize_witness :
    registration_to_icao ['n', '1'] = .error errUnsupported ∧
    registration_to_icao [' ', 'N', '1'] = .error errUnsupported ∧
    registration_to_icao ['N', '8', '4', '3', '7', 'd'] =
      registration_to_icao ['N', '8', '4', '3', '7', 'D'] := by
  refine ⟨c10_raw_N_check_then_normalize.1 ['n', '1'] (by decide),
    c10_raw_N_check_then_normalize.1 [' ', 'N', '1'] (by decide), ?_⟩
  have h := c10_raw_N_check_then_normalize.2 ['N', '8', '4', '3', '7', 'd'] (by decide)
  rw [h]
  rfl

end Registration

namespace Icao

/-- C5: `icao_u32_to_country` returns no result for every integer strictly
above `0xFFFFFF`, and also for the valid-but-unallocated address `0xFFFFFF`;
absence is the ordinary `none` of the `Option` return type, never an error. -/
theorem c5_lookup_country_validity_boundary :
    (∀ n : Nat, 0xFFFFFF < n → icao_u32_to_country n = none) ∧
    icao_u32_to_country 0xFFFFFF = none := by
  constructor
  · intro n h
    unfold icao_u32_to_country
    rw [if_pos h]
  · rfl

theorem c5_lookup_country_validity_boundary_witness :
    icao_u32_to_country 0x1000000 = none ∧ icao_u32_to_country 0xFFFFFF = none :=
  ⟨c5_lookup_country_validity_boundary.1 0x1000000 (by decide),
    c5_lookup_country_validity_boundary.2⟩

/-- C7 counterexample: the claim as stated is false.  The fixed allocation
table has exactly three entries whose code is the sentinel `ZZ` (icao.rs
lines 143, 144 and 181), not two. -/
theorem c7_counterexample :
    (ICAO_ALLOCATIONS.filter (fun e => e.2 == "ZZ")).length = 3 ∧ (3 : Nat) ≠ 2 :=
  ⟨rfl, by decide⟩

/-- C7 (amended): exactly three entries of the fixed allocation table map to
the sentinel code `ZZ`, and they behave as ordinary table rows: an address
whose binary form starts with one of their prefixes (`10001001100100`,
`11110000100100`, `111100000`) resolves to `ZZ` through the same
first-match-in-table-order scan as every other entry. -/
theorem c7_three_zz_ordinary_rows :
    (ICAO_ALLOCATIONS.filter (fun e => e.2 == "ZZ")).length = 3 ∧
    icao_u32_to_country 0x899000 = some "ZZ" ∧
    icao_u32_to_country 0xF09000 = some "ZZ" ∧
    icao_u32_to_country 0xF00000 = some "ZZ" ∧
    icao_to_country (0xF0, 0x00, 0x00) = some "ZZ" :=
  ⟨rfl, rfl, rfl, rfl, rfl⟩

end Icao

namespace Parser

theorem getD_mem_of_lt (l : List Nat) (j : Nat) (h : j < l.length) (d : Nat) :
    l.getD j d ∈ l := by
  induction l generalizing j with
  | nil => simp at h
  | cons a as ih =>
    cases j with
    | zero => simp
    | succ j2 =>
      simp only [List.getD_cons_succ]
      exact List.mem_cons_of_mem _ (ih j2 (by simpa using h))

/-- Every position up to the length of an all-ASCII byte string is a
character boundary. -/
theorem ascii_boundary (input : List Nat) (hascii : ∀ b ∈ input, b < 128) (i : Nat)
    (hi : i ≤ input.length) : isCharBoundary input i = true := by
  unfold isCharBoundary
  by_cases h0 : i = 0
  · rw [if_pos h0]
  · rw [if_neg h0]
    by_cases hl : i = input.length
    · rw [if_pos hl]
    · rw [if_neg hl, if_neg (by omega)]
      have hmem : input.getD i 0 ∈ input := getD_mem_of_lt input i (by omega) 0
      have hb := hascii _ hmem
      rw [Bool.not_eq_true', decide_eq_false_iff_not]
      omega

/-- The prefix-collecting fold of `parse_icao24bit` succeeds when every tried
slice end is a character boundary, and collects the index hits in order. -/
theorem icao_fold_eval {α : Type} (imap : List Nat → Option (EntityData α))
    (input : List Nat) (is : List Nat)
    (hok : ∀ i ∈ is, isCharBoundary input (i + 1) = true) (acc : List (EntityData α)) :
    (is.foldlM (fun acc i =>
      match sliceTo input (i + 1) with
      | some p => Except.ok (acc ++ (imap p).toList)
      | none => Except.error panicMsg) acc : Except String (List (EntityData α))) =
    .ok (is.foldl (fun acc i => acc ++ (imap (input.take (i + 1))).toList) acc) := by
  induction is generalizing acc with
  | nil => rfl
  | cons i rest ih =>
    have hb := hok i (by simp)
    rw [List.foldlM_cons]
    have hs : sliceTo input (i + 1) = some (input.take (i + 1)) := by
      unfold sliceTo
      rw [if_pos hb]
    rw [hs]
    show (rest.foldlM _ (acc ++ (imap (input.take (i + 1))).toList) :
      Except String (List (EntityData α))) = _
    rw [ih (fun j hj => hok j (by simp [hj])), List.foldl_cons]

theorem foldl_append_acc {β : Type} (g : Nat → List β) (l : List Nat) (acc : List β) :
    l.foldl (fun a i => a ++ g i) acc = acc ++ l.foldl (fun a i => a ++ g i) [] := by
  induction l generalizing acc with
  | nil => simp
  | cons x xs ih =>
    simp only [List.foldl_cons]
    rw [ih (acc ++ g x), ih ([] ++ g x)]
    simp [List.append_assoc]

theorem foldl_append_nil {β : Type} (g : Nat → List β) (l : List Nat)
    (h : ∀ i ∈ l, g i = []) : l.foldl (fun a i => a ++ g i) [] = [] := by
  induction l with
  | nil => rfl
  | cons x xs ih =>
    simp only [List.foldl_cons, h x (by simp), List.append_nil]
    exact ih (fun i hi => h i (by simp [hi]))

/-- Evaluation of `parse_icao24bit` in loose mode on all-ASCII input: the
result is the ordered list of literal-prefix hits. -/
theorem parse_icao24bit_ascii {α : Type} (imap : List Nat → Option (EntityData α))
    (input : List Nat) (hascii : ∀ b ∈ input, b < 128) :
    parse_icao24bit imap input false =
      (if ((List.range input.length).foldl
          (fun a i => a ++ (imap (input.take (i + 1))).toList) []).isEmpty then .ok none
      else .ok (some ((List.range input.length).foldl
          (fun a i => a ++ (imap (input.take (i + 1))).toList) []))) := by
  unfold parse_icao24bit
  rw [if_neg (by simp)]
  rw [icao_fold_eval imap input (List.range input.length)
    (fun i hi => ascii_boundary input hascii (i + 1)
      (by have := List.mem_range.mp hi; omega)) []]
  rfl

/-- C9: the claim is false on the code and the code is the slip.  On the
two-byte UTF-8 input `é` (bytes 0xC3 0xA9) the very first tried slice
`input[0..1]` splits the character, so `Parser::parse` panics instead of
returning: in IcaoAddress mode for every dataset, and in callsign mode
whenever the tried prefix length 1 is at most the maximum length.  The panic
is modelled as the error case of the computation. -/
theorem c9_parse_panics_on_multibyte {α : Type} (cmap : List Nat → List (EntityData α))
    (imap : List Nat → Option (EntityData α)) (minLen maxLen : Nat) :
    parse cmap imap minLen maxLen [0xC3, 0xA9] false true = .error panicMsg ∧
    parse cmap imap 1 2 [0xC3, 0xA9] false false = .error panicMsg ∧
    gather_callsigns cmap 1 2 [0xC3, 0xA9] = .error panicMsg :=
  ⟨rfl, rfl, rfl⟩

/-- C2: in IcaoAddress classification mode, candidates are collected for
prefix lengths 1 up to the input length in ascending order and the first
collected hit is returned, so among all literal prefixes of the input present
in the index, the record of the shortest one wins.  `L0` is the shortest
matching literal prefix length. -/
theorem c2_shortest_literal_wins {α : Type} (cmap : List Nat → List (EntityData α))
    (imap : List Nat → Option (EntityData α)) (minLen maxLen : Nat)
    (input : List Nat) (hascii : ∀ b ∈ input, b < 128)
    (L0 : Nat) (h1 : 1 ≤ L0) (hlen : L0 ≤ input.length)
    (r : EntityData α) (hhit : imap (input.take L0) = some r)
    (hmin : ∀ L, 1 ≤ L → L < L0 → imap (input.take L) = none) :
    parse cmap imap minLen maxLen input false true = .ok (some r.entity_result) := by
  have hsplit : List.range input.length =
      List.range' 0 (L0 - 1) ++ List.range' (L0 - 1) (input.length - (L0 - 1)) := by
    rw [List.range_eq_range']
    have h := List.range'_append 0 (L0 - 1) (input.length - (L0 - 1)) 1
    simp only [Nat.one_mul, Nat.zero_add] at h
    rw [h]
    congr 1
    omega
  have hnil : (List.range' 0 (L0 - 1)).foldl
      (fun a i => a ++ (imap (input.take (i + 1))).toList) [] = [] := by
    apply foldl_append_nil
    intro i hi
    have hr := List.mem_range'_1.mp hi
    rw [hmin (i + 1) (by omega) (by omega)]
    rfl
  have hsucc : List.range' (L0 - 1) (input.length - (L0 - 1)) =
      (L0 - 1) :: List.range' L0 (input.length - L0) := by
    have he : input.length - (L0 - 1) = (input.length - L0) + 1 := by omega
    have hL : L0 - 1 + 1 = L0 := by omega
    rw [he, List.range'_succ, hL]
  have hg0 : (imap (input.take ((L0 - 1) + 1))).toList = [r] := by
    have he : (L0 - 1) + 1 = L0 := by omega
    rw [he, hhit]
    rfl
  have hM : (List.range input.length).foldl
      (fun a i => a ++ (imap (input.take (i + 1))).toList) [] =
      r :: (List.range' L0 (input.length - L0)).foldl
        (fun a i => a ++ (imap (input.take (i + 1))).toList) [] := by
    rw [hsplit, List.foldl_append, hnil, hsucc, List.foldl_cons, hg0]
    rw [foldl_append_acc]
    rfl
  unfold parse
  rw [if_pos rfl, parse_icao24bit_ascii imap input hascii, hM]
  rw [if_neg (by simp)]
  rfl

theorem c2_shortest_literal_wins_witness :
    parse (fun _ => ([] : List (EntityData Nat))) c2DemoMap 0 0
      [55, 48, 48, 49, 50, 51] false true = .ok (some 1) := by
  have h := c2_shortest_literal_wins (fun _ => ([] : List (EntityData Nat))) c2DemoMap 0 0
    [55, 48, 48, 49, 50, 51] (by decide) 1 (by omega) (by decide) c2DemoRec1
    (by rfl) (fun L hL1 hL2 => by omega)
  exact h

theorem foldl_filter {α : Type} (p : EntityData α → Bool)
    (l : List (EntityData α)) (init : List (Int × List (EntityData α))) :
    l.foldl (fun gs d => if p d then insertGroup gs d else gs) init =
      (l.filter p).foldl insertGroup init := by
  induction l generalizing init with
  | nil => rfl
  | cons d rest ih =>
    simp only [List.foldl_cons, List.filter_cons]
    by_cases h : p d = true
    · rw [if_pos h, if_pos h, List.foldl_cons]
      exact ih _
    · rw [if_neg h, if_neg h]
      exact ih _

theorem lookup_insert {α : Type} (gs : List (Int × List (EntityData α)))
    (d : EntityData α) (p : Int) :
    groupLookup (insertGroup gs d) p =
      (if p = d.priority then some ((groupLookup gs p).getD [] ++ [d])
       else groupLookup gs p) := by
  induction gs with
  | nil =>
    by_cases h : p = d.priority
    · rw [if_pos h]
      have hb : (d.priority == p) = true := beq_iff_eq.mpr h.symm
      simp [insertGroup, groupLookup, hb]
    · rw [if_neg h]
      have hb : (d.priority == p) = false := beq_eq_false_iff_ne.mpr (fun hh => h hh.symm)
      simp [insertGroup, groupLookup, hb]
  | cons g rest ih =>
    by_cases hg : g.1 = d.priority
    · simp only [insertGroup, if_pos hg]
      by_cases hp : p = d.priority
      · have hb : (g.1 == p) = true := beq_iff_eq.mpr (by rw [hg, hp])
        simp [groupLookup, hb, if_pos hp]
      · have hb : (g.1 == p) = false := by
          rw [hg]
          exact beq_eq_false_iff_ne.mpr (fun hh => hp hh.symm)
        simp [groupLookup, hb, if_neg hp]
    · simp only [insertGroup, if_neg hg]
      by_cases hgp : g.1 = p
      · have hb : (g.1 == p) = true := beq_iff_eq.mpr hgp
        have hp : ¬ (p = d.priority) := by
          rw [← hgp]
          exact hg
        simp [groupLookup, hb, if_neg hp]
      · have hb : (g.1 == p) = false := beq_eq_false_iff_ne.mpr hgp
        simpa [groupLookup, hb] using ih

theorem lookup_fold {α : Type} (l : List (EntityData α))
    (gs : List (Int × List (EntityData α))) (p : Int) :
    groupLookup (l.foldl insertGroup gs) p =
      (match groupLookup gs p with
       | some v => some (v ++ l.filter (fun d => d.priority == p))
       | none =>
         if (l.filter (fun d => d.priority == p)).isEmpty then none
         else some (l.filter (fun d => d.priority == p))) := by
  induction l generalizing gs with
  | nil =>
    rcases h : groupLookup gs p with _ | v <;> simp [h]
  | cons d rest ih =>
    simp only [List.foldl_cons, List.filter_cons]
    rw [ih (insertGroup gs d), lookup_insert]
    by_cases hp : p = d.priority
    · have hb : (d.priority == p) = true := beq_iff_eq.mpr hp.symm
      rw [if_pos hp]
      simp only [hb, if_true]
      rcases h : groupLookup gs p with _ | v
      · simp
      · simp [List.append_assoc]
    · have hb : (d.priority == p) = false := beq_eq_false_iff_ne.mpr (fun hh => hp hh.symm)
      rw [if_neg hp]
      simp only [hb, Bool.false_eq_true, if_false]

theorem keys_insert {α : Type} (gs : List (Int × List (EntityData α)))
    (d : EntityData α) (p : Int) :
    (p ∈ (insertGroup gs d).map (fun g => g.1) ↔
      p = d.priority ∨ p ∈ gs.map (fun g => g.1)) := by
  induction gs with
  | nil => simp [insertGroup]
  | cons g rest ih =>
    by_cases hg : g.1 = d.priority
    · simp only [insertGroup, if_pos hg, List.map_cons, List.mem_cons]
      rw [hg]
      tauto
    · simp only [insertGroup, if_neg hg, List.map_cons, List.mem_cons, ih]
      tauto

theorem keys_fold {α : Type} (l : List (EntityData α))
    (gs : List (Int × List (EntityData α))) (p : Int) :
    (p ∈ (l.foldl insertGroup gs).map (fun g => g.1) ↔
      p ∈ gs.map (fun g => g.1) ∨ p ∈ l.map (fun d => d.priority)) := by
  induction l generalizing gs with
  | nil => simp
  | cons d rest ih =>
    simp only [List.foldl_cons, List.map_cons, List.mem_cons]
    rw [ih (insertGroup gs d), keys_insert]
    tauto

theorem int_max?_eq_some_iff (xs : List Int) (a : Int) :
    xs.max? = some a ↔ a ∈ xs ∧ ∀ b ∈ xs, b ≤ a := by
  letI : Std.Antisymm (fun x1 x2 : Int => x1 ≤ x2) :=
    ⟨by intro a b h1 h2; exact le_antisymm h1 h2⟩
  exact List.max?_eq_some_iff (fun x => le_refl x) (fun x y => max_choice x y)
    (fun _ _ _ => max_le_iff)

theorem int_max?_congr (xs ys : List Int) (h : ∀ x, x ∈ xs ↔ x ∈ ys) :
    xs.max? = ys.max? := by
  rcases hx : xs.max? with _ | m
  · have hxs : xs = [] := List.max?_eq_none_iff.mp hx
    have hys : ys = [] := by
      rw [List.eq_nil_iff_forall_not_mem]
      intro x hxm
      have h2 := (h x).mpr hxm
      rw [hxs] at h2
      simp at h2
    rw [hys]
    rfl
  · symm
    rw [int_max?_eq_some_iff]
    have h2 := (int_max?_eq_some_iff xs m).mp hx
    exact ⟨(h m).mp h2.1, fun b hb => h2.2 b ((h b).mpr hb)⟩

/-- The registration-mode branch of `Parser::parse`. -/
theorem parse_reg_top {α : Type} (cmap : List Nat → List (EntityData α))
    (imap : List Nat → Option (EntityData α)) (minLen maxLen : Nat)
    (input : List Nat) (strict : Bool) :
    parse cmap imap minLen maxLen input strict false =
      (parse_registration cmap minLen maxLen input strict).map (fun res =>
        match res with
        | some ms => ms.head?.map (fun d => d.entity_result)
        | none => none) := rfl

/-- Evaluation of `parse_registration` once gathering has succeeded: the
priority grouping runs over the pattern-matching candidates. -/
theorem parse_registration_eval {α : Type} (cmap : List Nat → List (EntityData α))
    (minLen maxLen : Nat) (input : List Nat) (strict : Bool)
    (cands : List (EntityData α))
    (hg : gather_callsigns cmap minLen maxLen input = .ok cands) :
    parse_registration cmap minLen maxLen input strict =
      (if cands.isEmpty then .ok none
       else
         match (((cands.filter (fun d => if strict then d.strict_regex input
             else d.regex input)).foldl insertGroup []).map (fun g => g.1)).max? with
         | none => .ok none
         | some mp => .ok (groupLookup ((cands.filter (fun d =>
             if strict then d.strict_regex input else d.regex input)).foldl
               insertGroup []) mp)) := by
  unfold parse_registration
  rw [hg, ← foldl_filter (fun d => if strict then d.strict_regex input else d.regex input)
    cands []]
  rfl

/-- C6: in callsign classification mode, among the gathered candidates whose
selected pattern matches the input, the returned record is the first
candidate in candidate-list order belonging to the group with the maximum
priority value; if no candidate matches, nothing is returned; and whenever a
result is returned, its priority is at least the priority of every matching
candidate, regardless of candidate order. -/
theorem c6_priority_precedence {α : Type} (cmap : List Nat → List (EntityData α))
    (imap : List Nat → Option (EntityData α)) (minLen maxLen : Nat)
    (input : List Nat) (strict : Bool) (cands : List (EntityData α))
    (hg : gather_callsigns cmap minLen maxLen input = .ok cands) :
    ((cands.filter (fun d => if strict then d.strict_regex input else d.regex input)) = [] →
      parse cmap imap minLen maxLen input strict false = .ok none) ∧
    (∀ mp, ((cands.filter (fun d => if strict then d.strict_regex input
        else d.regex input)).map (fun d => d.priority)).max? = some mp →
      parse cmap imap minLen maxLen input strict false =
        .ok (((cands.filter (fun d => if strict then d.strict_regex input
          else d.regex input)).filter (fun d => d.priority == mp)).head?.map
            (fun d => d.entity_result))) ∧
    (∀ a, parse cmap imap minLen maxLen input strict false = .ok (some a) →
      ∀ r1 ∈ cands, (if strict then r1.strict_regex input else r1.regex input) = true →
        ∃ r2 ∈ cands, ((if strict then r2.strict_regex input else r2.regex input) = true ∧
          a = r2.entity_result ∧ r1.priority ≤ r2.priority)) := by
  have hkeys : ∀ mtch : List (EntityData α),
      ((mtch.foldl insertGroup []).map (fun g => g.1)).max? =
        (mtch.map (fun d => d.priority)).max? := by
    intro mtch
    apply int_max?_congr
    intro x
    rw [keys_fold]
    simp
  have hlook : ∀ (mtch : List (EntityData α)) mp,
      groupLookup (mtch.foldl insertGroup []) mp =
        (if (mtch.filter (fun d => d.priority == mp)).isEmpty then none
         else some (mtch.filter (fun d => d.priority == mp))) := by
    intro mtch mp
    rw [lookup_fold]
    rfl
  refine ⟨?_, ?_, ?_⟩
  · intro hm
    rw [parse_reg_top, parse_registration_eval cmap minLen maxLen input strict cands hg]
    by_cases hc : cands.isEmpty = true
    · rw [if_pos hc]
      rfl
    · rw [if_neg hc, hm]
      rfl
  · intro mp hmp
    have hmne : cands.filter (fun d => if strict then d.strict_regex input
        else d.regex input) ≠ [] := by
      intro hnil
      rw [hnil] at hmp
      simp at hmp
    have hcne : ¬ (cands.isEmpty = true) := by
      intro hc
      have : cands = [] := by simpa using hc
      rw [this] at hmne
      simp at hmne
    have hpr : parse_registration cmap minLen maxLen input strict =
        .ok (groupLookup ((cands.filter (fun d => if strict then d.strict_regex input
          else d.regex input)).foldl insertGroup []) mp) := by
      rw [parse_registration_eval cmap minLen maxLen input strict cands hg,
        if_neg hcne, hkeys, hmp]
    have hmem : mp ∈ (cands.filter (fun d => if strict then d.strict_regex input
        else d.regex input)).map (fun d => d.priority) :=
      ((int_max?_eq_some_iff _ mp).mp hmp).1
    have hfne : ¬ (((cands.filter (fun d => if strict then d.strict_regex input
        else d.regex input)).filter (fun d => d.priority == mp)).isEmpty = true) := by
      rw [List.mem_map] at hmem
      obtain ⟨d, hd, hdp⟩ := hmem
      intro hie
      have hnil : (cands.filter (fun d => if strict then d.strict_regex input
          else d.regex input)).filter (fun d => d.priority == mp) = [] := by
        simpa using hie
      have : d ∈ ((cands.filter (fun d => if strict then d.strict_regex input
          else d.regex input)).filter (fun d => d.priority == mp)) := by
        rw [List.mem_filter]
        exact ⟨hd, beq_iff_eq.mpr hdp⟩
      rw [hnil] at this
      simp at this
    rw [parse_reg_top, hpr, hlook, if_neg hfne]
    rfl
  · intro a ha r1 hr1 hm1
    have hr1m : r1 ∈ cands.filter (fun d => if strict then d.strict_regex input
        else d.regex input) := by
      rw [List.mem_filter]
      exact ⟨hr1, hm1⟩
    rcases hmax : ((cands.filter (fun d => if strict then d.strict_regex input
        else d.regex input)).map (fun d => d.priority)).max? with _ | mp
    · exfalso
      have hnil : (cands.filter (fun d => if strict then d.strict_regex input
          else d.regex input)).map (fun d => d.priority) = [] :=
        List.max?_eq_none_iff.mp hmax
      have : cands.filter (fun d => if strict then d.strict_regex input
          else d.regex input) = [] := by
        rcases hflt : cands.filter (fun d => if strict then d.strict_regex input
            else d.regex input) with _ | ⟨x, xs⟩
        · exact hflt
        · rw [hflt] at hnil
          simp at hnil
      rw [this] at hr1m
      simp at hr1m
    · have h2 := hmax
      rw [int_max?_eq_some_iff] at h2
      have hcne : ¬ (cands.isEmpty = true) := by
        intro hc
        have hce : cands = [] := by simpa using hc
        rw [hce] at hr1
        simp at hr1
      have hpr : parse_registration cmap minLen maxLen input strict =
          .ok (groupLookup ((cands.filter (fun d => if strict then d.strict_regex input
            else d.regex input)).foldl insertGroup []) mp) := by
        rw [parse_registration_eval cmap minLen maxLen input strict cands hg,
          if_neg hcne, hkeys, hmax]
      have heq := ha
      rw [parse_reg_top, hpr, hlook] at heq
      by_cases hfe : ((cands.filter (fun d => if strict then d.strict_regex input
          else d.regex input)).filter (fun d => d.priority == mp)).isEmpty = true
      · rw [if_pos hfe] at heq
        have h3 : (Except.ok none : Except String (Option α)) = Except.ok (some a) := heq
        simp at h3
      · rw [if_neg hfe] at heq
        rcases hgrp : (cands.filter (fun d => if strict then d.strict_regex input
            else d.regex input)).filter (fun d => d.priority == mp) with _ | ⟨r2, grest⟩
        · exact absurd (by rw [hgrp]; rfl) hfe
        · rw [hgrp] at heq
          have ha2 : a = r2.entity_result := by
            have h3 : (Except.ok (some r2.entity_result) : Except String (Option α)) =
                Except.ok (some a) := heq
            simpa using h3.symm
          have hr2m := hgrp ▸ (List.mem_cons_self r2 grest)
          have hr2f : r2 ∈ (cands.filter (fun d => if strict then d.strict_regex input
              else d.regex input)).filter (fun d => d.priority == mp) := by
            rw [hgrp]
            simp
          rw [List.mem_filter] at hr2f
          obtain ⟨hr2mm, hr2p⟩ := hr2f
          rw [List.mem_filter] at hr2mm
          refine ⟨r2, hr2mm.1, hr2mm.2, ha2, ?_⟩
          have hle := h2.2 r1.priority (by
            rw [List.mem_map]
            exact ⟨r1, hr1m, rfl⟩)
          have hpr2 : r2.priority = mp := beq_iff_eq.mp hr2p
          omega

theorem c6_priority_precedence_witness :
    parse c6DemoMap (fun _ => (none : Option (EntityData Nat))) 1 2 [65, 66]
      false false = .ok (some 2) := by
  have h := (c6_priority_precedence c6DemoMap (fun _ => (none : Option (EntityData Nat)))
    1 2 [65, 66] false [c6DemoRec1, c6DemoRec2] rfl).2.1 5 rfl
  exact h

end Parser
